import Mathlib

/-!
Verification development for the HCS-GCS protocol core of this repository:
message identifiers, the modify-settings decoder, and the SCSI mount
manager, shallowly embedded from internal/guest/prot/protocol.go and the
SCSI mount-manager source file.
-/

namespace HcsGcs

/-! ## Message identifiers

Embeds the identifier bit-field constants and GetResponseIdentifier.
Identifiers are uint32 values, embedded as Nat. -/

def messageTypeMask : Nat := 0xF0000000

def MtResponse : Nat := 0x20000000

/-- GetResponseIdentifier from protocol.go:
MtResponse | (uint32(identifier) & ^uint32(messageTypeMask)).
The uint32 complement of the mask is written as xor with 0xFFFFFFFF. -/
def GetResponseIdentifier (identifier : Nat) : Nat :=
  MtResponse ||| (identifier &&& (0xFFFFFFFF ^^^ messageTypeMask))

/-! ## SCSI mount manager: data model

Embedded from the scsi mount-manager source. Go uint (64-bit) arithmetic
on refCount is modelled with explicit wrap at 2 ^ 64. -/

def W64 : Nat := 2 ^ 64

def incWrap (n : Nat) : Nat := (n + 1) % W64

def decWrap (n : Nat) : Nat := (n + (W64 - 1)) % W64

structure MountConfig where
  partition : Nat
  readOnly : Bool
  encrypted : Bool
  blockDev : Bool
  options : List String
  ensureFilesystem : Bool
  filesystem : String
deriving DecidableEq, Repr

structure Mount where
  path : String
  index : Nat
  controller : Nat
  lun : Nat
  config : MountConfig
  waitErr : Option String
  refCount : Nat
deriving DecidableEq, Repr

/-- The mount manager state: the mounts table (nil slots are free) and the
mountFmt format template, embedded as the function it denotes on indices
(fmt.Sprintf mountFmt index). -/
structure MountManager where
  mounts : List (Option Mount)
  mountFmt : Nat → String

/-- Outcome function of the mounter collaborator: none is a nil error. -/
abbrev MountOracle := Nat → Nat → String → MountConfig → Option String

/-- Lexicographic comparison of character sequences by code point, the
order Go's byte-wise string comparison induces on UTF-8 strings. -/
def charsLt : List Char → List Char → Bool
  | [], [] => false
  | [], _ :: _ => true
  | _ :: _, [] => false
  | x :: xs, y :: ys =>
      if x.val.toNat < y.val.toNat then true
      else if y.val.toNat < x.val.toNat then false
      else charsLt xs ys

/-- Go's string less-than. -/
def strLt (a b : String) : Bool := charsLt a.data b.data

/-- sort.Strings: lexicographic ascending sort (insertion sort; Go's sort
agrees with any correct sort on a total order). -/
def insertSorted (s : String) : List String → List String
  | [] => [s]
  | t :: rest => if strLt t s then t :: insertSorted s rest else s :: t :: rest

def sortStrings (l : List String) : List String := l.foldr insertSorted []

/-- The in-place sort.Strings(c.options) done at the top of mount. -/
def sortConfig (c : MountConfig) : MountConfig :=
  { c with options := sortStrings c.options }

/-! ## trackMount -/

inductive TrackResult where
  | dedup (j : Nat) (m : Mount)
  | conflict
  | fresh (freeIndex : Option Nat)
deriving Repr

/-- Key equality of trackMount: same controller, same lun, and
reflect.DeepEqual of the (already sorted) configs, which on this value
type is structural equality. -/
abbrev KeyEq (controller lun : Nat) (c : MountConfig) (m : Mount) : Prop :=
  controller = m.controller ∧ lun = m.lun ∧ c = m.config

/-- Path collision of trackMount: the caller-supplied path is non-empty and
equals the live entry's path. -/
abbrev PathClash (path : String) (m : Mount) : Prop :=
  path ≠ "" ∧ path = m.path

/-- The scan loop of trackMount: walks the table remembering the first free
slot; a key-equal live entry wins as dedup; otherwise a live entry with the
caller's non-empty path is a conflict. i is the absolute position of the
list head. -/
def trackLoop (controller lun : Nat) (path : String) (c : MountConfig) :
    List (Option Mount) → Nat → Option Nat → TrackResult
  | [], _, freeIndex => .fresh freeIndex
  | none :: rest, i, freeIndex =>
      trackLoop controller lun path c rest (i + 1)
        (if freeIndex = none then some i else freeIndex)
  | some m :: rest, i, freeIndex =>
      if KeyEq controller lun c m then
        .dedup i m
      else if PathClash path m then
        .conflict
      else
        trackLoop controller lun path c rest (i + 1) freeIndex

/-- trackMount: returns (mount, existed) or the conflict error, plus the
updated manager. -/
def trackMount (mm : MountManager) (controller lun : Nat) (path : String)
    (c : MountConfig) : Except String (Mount × Bool) × MountManager :=
  match trackLoop controller lun path c mm.mounts 0 none with
  | .dedup j m =>
      let m' := { m with refCount := incWrap m.refCount }
      (.ok (m', true), { mm with mounts := mm.mounts.set j (some m') })
  | .conflict =>
      (.error ("cannot mount over an existing mountpoint: " ++ path), mm)
  | .fresh freeIndex =>
      let index := match freeIndex with
        | none => mm.mounts.length
        | some j => j
      let mpath := if path = "" then mm.mountFmt index else path
      let m : Mount :=
        { path := mpath, index := index, controller := controller, lun := lun,
          config := c, waitErr := none, refCount := 1 }
      let mounts' := match freeIndex with
        | none => mm.mounts ++ [some m]
        | some j => mm.mounts.set j (some m)
      (.ok (m, false), { mm with mounts := mounts' })

/-- untrackMount: frees the slot at the entry's index. -/
def untrackMount (mm : MountManager) (m : Mount) : MountManager :=
  { mm with mounts := mm.mounts.set m.index none }

/-! ## mount -/

/-- The tail of the pioneer's mount call after mounter.mount returned: the
deferred function untracks the entry on error, records the error in waitErr
and closes the wait channel. Returns the caller result, the manager state at
publication, and the published mount object (the one subscribers alias). -/
def pioneerFinish (mm : MountManager) (mounterErr : Option String)
    (controller lun : Nat) (m : Mount) :
    Except String String × MountManager × Mount :=
  match mounterErr with
  | some e =>
      let w := "mount scsi controller " ++ toString controller ++ " lun "
        ++ toString lun ++ " at " ++ m.path ++ ": " ++ e
      (.error w, untrackMount mm m, { m with waitErr := some w })
  | none => (.ok m.path, mm, { m with waitErr := none })

/-- A subscriber that observed readiness: returns waitErr if set, else the
pioneer's path. -/
def subscriberFinish (m : Mount) : Except String String :=
  match m.waitErr with
  | some e => .error e
  | none => .ok m.path

/-- mountManager.mount, sequential semantics (the caller runs to
completion). The third component records whether mounter.mount was
invoked. -/
def mount (mm : MountManager) (mounterMount : MountOracle) (controller lun : Nat)
    (path : String) (c : MountConfig) :
    Except String String × MountManager × Bool :=
  let c' := sortConfig c
  match trackMount mm controller lun path c' with
  | (.error e, mm1) => (.error e, mm1, false)
  | (.ok (m, true), mm1) => (subscriberFinish m, mm1, false)
  | (.ok (m, false), mm1) =>
      let r := pioneerFinish mm1 (mounterMount controller lun m.path c') controller lun m
      (r.1, r.2.1, true)

/-! ## unmount -/

/-- The search loop of unmount. Faithful to the Go loop
`for _, mount = range mm.mounts`: the loop variable ends up holding the
first live entry whose path matches, or otherwise the last element of the
slice (possibly nil). none models the nil pointer. -/
def unmountTarget (path : String) : List (Option Mount) → Nat → Option (Nat × Mount)
  | [], _ => none
  | x :: rest, i =>
      match x, rest with
      | some m, [] => some (i, m)
      | none, [] => none
      | some m, r :: rs =>
          if m.path = path then some (i, m)
          else unmountTarget path (r :: rs) (i + 1)
      | none, r :: rs => unmountTarget path (r :: rs) (i + 1)

inductive UnmountResult where
  | panic
  | failed (e : String)
  | ok
deriving DecidableEq, Repr

/-- mountManager.unmount. panic models the nil-pointer dereference of
mount.refCount-- when no entry matched and the loop variable is nil. The
third component records whether mounter.unmount was invoked. -/
def unmount (mm : MountManager) (mounterUnmount : MountOracle) (path : String) :
    UnmountResult × MountManager × Bool :=
  match unmountTarget path mm.mounts 0 with
  | none => (.panic, mm, false)
  | some (i, m) =>
      let m' := { m with refCount := decWrap m.refCount }
      let mounts' := mm.mounts.set i (some m')
      if m'.refCount > 0 then (.ok, { mm with mounts := mounts' }, false)
      else
        match mounterUnmount m.controller m.lun m.path m.config with
        | some e =>
            (.failed ("unmount scsi controller " ++ toString m.controller ++ " lun "
                ++ toString m.lun ++ " at path " ++ m.path ++ ": " ++ e),
             { mm with mounts := mounts' }, true)
        | none =>
            (.ok, { mm with mounts := mounts'.set m'.index none }, true)

/-! ## Operation sequences and reachability -/

/-- A mount or unmount operation on a single key, for reference-count
sequences. -/
inductive MMOp where
  | mnt
  | unmnt
deriving DecidableEq, Repr

/-- A mounter whose mount and unmount always succeed. -/
def alwaysOk : MountOracle := fun _ _ _ _ => none

/-- Runs a sequence of mount/unmount operations on the single key
(controller, lun, c), mounting with an empty supplied path and unmounting
the generated path, threading counts of mounter.mount and mounter.unmount
invocations. -/
def runOps (controller lun : Nat) (c : MountConfig) :
    List MMOp → MountManager × Nat × Nat → MountManager × Nat × Nat
  | [], st => st
  | MMOp.mnt :: rest, (mm, mc, uc) =>
      let r := mount mm alwaysOk controller lun "" c
      runOps controller lun c rest (r.2.1, mc + (if r.2.2 then 1 else 0), uc)
  | MMOp.unmnt :: rest, (mm, mc, uc) =>
      let r := unmount mm alwaysOk (mm.mountFmt 0)
      runOps controller lun c rest (r.2.1, mc, uc + (if r.2.2 then 1 else 0))

/-- The single live entry produced by runOps: index 0, generated path,
sorted config, current reference count n. -/
def singleKeyEntry (gen : Nat → String) (controller lun : Nat)
    (c : MountConfig) (n : Nat) : Mount :=
  { path := gen 0, index := 0, controller := controller, lun := lun,
    config := sortConfig c, waitErr := none, refCount := n }

/-- A sequence is balanced from running count n when no unmount occurs at
count zero. -/
def balancedFrom : Nat → List MMOp → Bool
  | _, [] => true
  | n, MMOp.mnt :: rest => balancedFrom (n + 1) rest
  | n, MMOp.unmnt :: rest => decide (0 < n) && balancedFrom (n - 1) rest

/-- Specification counters: final balance, mounter.mount invocations, and
mounter.unmount invocations (one exactly when the running count drops to
zero) along a balanced sequence. -/
def specCounters : Nat → List MMOp → Nat × Nat × Nat
  | n, [] => (n, 0, 0)
  | n, MMOp.mnt :: rest =>
      let r := specCounters (n + 1) rest
      (r.1, (if n = 0 then 1 else 0) + r.2.1, r.2.2)
  | n, MMOp.unmnt :: rest =>
      let r := specCounters (n - 1) rest
      (r.1, r.2.1, (if n = 1 then 1 else 0) + r.2.2)

/-- States of the mount manager reachable by any sequence of mount and
unmount calls, with arbitrary paths, keys, configs and mounter outcomes. -/
inductive Reachable (gen : Nat → String) : MountManager → Prop
  | init : Reachable gen ⟨[], gen⟩
  | mountStep (mm : MountManager) (o : MountOracle) (controller lun : Nat)
      (p : String) (c : MountConfig) : Reachable gen mm →
      Reachable gen (mount mm o controller lun p c).2.1
  | unmountStep (mm : MountManager) (o : MountOracle) (p : String) :
      Reachable gen mm → Reachable gen (unmount mm o p).2.1

/-- States reachable when every mount call supplies either an empty path or
a path outside the range of the format template. -/
inductive ReachableAvoiding (gen : Nat → String) : MountManager → Prop
  | init : ReachableAvoiding gen ⟨[], gen⟩
  | mountStep (mm : MountManager) (o : MountOracle) (controller lun : Nat)
      (p : String) (c : MountConfig) (hp : p = "" ∨ ∀ i, p ≠ gen i) :
      ReachableAvoiding gen mm →
      ReachableAvoiding gen (mount mm o controller lun p c).2.1
  | unmountStep (mm : MountManager) (o : MountOracle) (p : String) :
      ReachableAvoiding gen mm → ReachableAvoiding gen (unmount mm o p).2.1

/-- Interleaved execution of two mount calls on the same manager: caller A
runs its trackMount; caller B runs its trackMount while A is still in
flight; A's mounter returns (outcome pioneerErr) and A publishes; then B
completes. If B did not subscribe to an in-flight entry it runs on its own
with mounter outcome otherErr. Each caller's result is paired with the
number of mounter.mount invocations it performed. -/
def inflightDedup (mm0 : MountManager) (controller lun : Nat) (p1 p2 : String)
    (c1 c2 : MountConfig) (pioneerErr otherErr : Option String) :
    (Except String String × Nat) × (Except String String × Nat) × MountManager :=
  match trackMount mm0 controller lun p1 (sortConfig c1) with
  | (.error e, mm1) =>
      let rB := mount mm1 (fun _ _ _ _ => otherErr) controller lun p2 c2
      ((.error e, 0), (rB.1, if rB.2.2 then 1 else 0), rB.2.1)
  | (.ok (mA, true), mm1) =>
      let rB := mount mm1 (fun _ _ _ _ => otherErr) controller lun p2 c2
      ((subscriberFinish mA, 0), (rB.1, if rB.2.2 then 1 else 0), rB.2.1)
  | (.ok (mA, false), mm1) =>
      match trackMount mm1 controller lun p2 (sortConfig c2) with
      | (.error e, mm2) =>
          let rA := pioneerFinish mm2 pioneerErr controller lun mA
          ((rA.1, 1), (.error e, 0), rA.2.1)
      | (.ok (_, true), mm2) =>
          let rA := pioneerFinish mm2 pioneerErr controller lun mA
          ((rA.1, 1), (subscriberFinish rA.2.2, 0), rA.2.1)
      | (.ok (mB, false), mm2) =>
          let rA := pioneerFinish mm2 pioneerErr controller lun mA
          let rB := pioneerFinish rA.2.1 otherErr controller lun mB
          ((rA.1, 1), (rB.1, 1), rB.2.1)

/-- A live entry is well placed: its index is its slot, and its path is
either generated from its own slot or lies outside the template's range. -/
def EntryOk (gen : Nat → String) (i : Nat) (m : Mount) : Prop :=
  m.index = i ∧ (m.path = gen i ∨ ∀ j, m.path ≠ gen j)

/-- Invariant of the mount table: the template is gen, every live entry is
well placed, and no two live entries share a non-empty path. -/
def TableOk (gen : Nat → String) (mm : MountManager) : Prop :=
  mm.mountFmt = gen
  ∧ (∀ (i : Nat) (m : Mount), mm.mounts[i]? = some (some m) → EntryOk gen i m)
  ∧ ∀ (i j : Nat) (mi mj : Mount), i ≠ j →
      mm.mounts[i]? = some (some mi) → mm.mounts[j]? = some (some mj) →
      mi.path ≠ "" → mi.path ≠ mj.path

/-! ### Concrete sample values used by witnesses and counterexamples -/

/-- A sample mount config with no options. -/
def sampleConfig : MountConfig :=
  { partition := 0, readOnly := false, encrypted := false, blockDev := false,
    options := [], ensureFilesystem := false, filesystem := "" }

/-- A sample config whose options are supplied out of order. -/
def sampleConfigBA : MountConfig :=
  { partition := 0, readOnly := true, encrypted := false, blockDev := false,
    options := ["ro", "noatime"], ensureFilesystem := false, filesystem := "" }

/-- The same config with its options in the opposite order. -/
def sampleConfigAB : MountConfig :=
  { partition := 0, readOnly := true, encrypted := false, blockDev := false,
    options := ["noatime", "ro"], ensureFilesystem := false, filesystem := "" }

/-- A sample format template, standing for fmt.Sprintf of a template with
one integer verb. -/
def sampleGen : Nat → String := fun i => "/m" ++ toString i

/-- A sample live entry occupying slot 0 with key (9, 9). -/
def sampleEntry0 : Mount :=
  { path := "/a", index := 0, controller := 9, lun := 9,
    config := sampleConfig, waitErr := none, refCount := 1 }

/-- A sample template whose outputs are pairwise distinct (index i maps to
the string of i letters a). -/
def sampleGenInj : Nat → String := fun i => String.mk (List.replicate i 'a')

/-! ## Modify-settings decoder

Embeds UnmarshalContainerModifySettings. JSON documents are embedded as
trees; text-level parsing is outside the function under study. -/

inductive Json where
  | null
  | bool (b : Bool)
  | num (n : Int)
  | str (s : String)
  | arr (elems : List Json)
  | obj (fields : List (String × Json))

/-- Modelled from the spec: field extraction of commonutils'
UnmarshalJSONWithHresult (Go json.Unmarshal) for string-typed struct
fields; an absent field keeps the zero value "". The concrete decoder
lives outside this package. -/
def getStringField (fields : List (String × Json)) (name : String) :
    Except String String :=
  match fields.lookup name with
  | none => .ok ""
  | some (.str s) => .ok s
  | some _ => .error ("cannot unmarshal field " ++ name ++ " as string")

/-- Modelled from the spec: the concrete settings records selected by the
ResourceType discriminator. Their field schemas live in the guestresource
package outside this file's source; each constructor keeps the decoded
payload. -/
inductive SettingsRecord where
  | scsiDevice (j : Json)
  | mappedVirtualDisk (j : Json)
  | mappedDirectory (j : Json)
  | vpmemDevice (j : Json)
  | combinedLayers (j : Json)
  | networkAdapter (j : Json)
  | vpciDevice (j : Json)
  | containerConstraints (j : Json)
  | securityPolicy (j : Json)
  | policyFragment (j : Json)

/-- Modelled from the spec: the resource type discriminator strings of the
guestresource package. -/
def ResourceTypeSCSIDevice : String := "SCSIDevice"

def ResourceTypeMappedVirtualDisk : String := "MappedVirtualDisk"

def ResourceTypeMappedDirectory : String := "MappedDirectory"

def ResourceTypeVPMemDevice : String := "VPMemDevice"

def ResourceTypeCombinedLayers : String := "CombinedLayers"

def ResourceTypeNetwork : String := "Network"

def ResourceTypeVPCIDevice : String := "VPCIDevice"

def ResourceTypeContainerConstraints : String := "ContainerConstraints"

def ResourceTypeSecurityPolicy : String := "SecurityPolicy"

def ResourceTypePolicyFragment : String := "SecurityPolicyFragment"

/-- Modelled from the spec: the Add request type default. -/
def RequestTypeAdd : String := "Add"

/-- Modelled from the spec: json.Unmarshal of the raw settings bytes into a
concrete record; a missing raw value (nil RawMessage) fails like
json.Unmarshal of empty input. -/
def decodeSettings (mk : Json → SettingsRecord) (raw : Option Json) :
    Except String SettingsRecord :=
  match raw with
  | none => .error "unexpected end of JSON input"
  | some j => .ok (mk j)

/-- The ResourceType switch of UnmarshalContainerModifySettings. -/
def dispatchSettings (rt : String) (raw : Option Json) :
    Except String SettingsRecord :=
  if rt = ResourceTypeSCSIDevice then decodeSettings SettingsRecord.scsiDevice raw
  else if rt = ResourceTypeMappedVirtualDisk then
    decodeSettings SettingsRecord.mappedVirtualDisk raw
  else if rt = ResourceTypeMappedDirectory then
    decodeSettings SettingsRecord.mappedDirectory raw
  else if rt = ResourceTypeVPMemDevice then
    decodeSettings SettingsRecord.vpmemDevice raw
  else if rt = ResourceTypeCombinedLayers then
    decodeSettings SettingsRecord.combinedLayers raw
  else if rt = ResourceTypeNetwork then
    decodeSettings SettingsRecord.networkAdapter raw
  else if rt = ResourceTypeVPCIDevice then
    decodeSettings SettingsRecord.vpciDevice raw
  else if rt = ResourceTypeContainerConstraints then
    decodeSettings SettingsRecord.containerConstraints raw
  else if rt = ResourceTypeSecurityPolicy then
    decodeSettings SettingsRecord.securityPolicy raw
  else if rt = ResourceTypePolicyFragment then
    decodeSettings SettingsRecord.policyFragment raw
  else .error ("invalid ResourceType '" ++ rt ++ "'")

structure ModificationRequest where
  resourceType : String
  requestType : String
  settings : SettingsRecord

structure ContainerModifySettings where
  containerID : String
  activityID : String
  request : ModificationRequest

/-- UnmarshalContainerModifySettings: two-phase decode. Phase one parses
the outer envelope leaving Request raw; phase two parses Request into
(ResourceType, RequestType, raw Settings), defaults RequestType to Add when
empty, then dispatches on ResourceType. Go's partial results accompanying
errors are dropped; only the error is kept. -/
def UnmarshalContainerModifySettings (j : Json) :
    Except String ContainerModifySettings :=
  match j with
  | .obj fields =>
    match getStringField fields "ContainerId", getStringField fields "ActivityId" with
    | .ok cid, .ok aid =>
      match fields.lookup "Request" with
      | some (.obj rfields) =>
        match getStringField rfields "ResourceType",
              getStringField rfields "RequestType" with
        | .ok rt, .ok rq0 =>
          let rq := if rq0 = "" then RequestTypeAdd else rq0
          match dispatchSettings rt (rfields.lookup "Settings") with
          | .ok s => .ok ⟨cid, aid, ⟨rt, rq, s⟩⟩
          | .error e => .error e
        | .error e, _ => .error e
        | _, .error e => .error e
      | _ => .error "failed to unmarshal request.Settings as ModifySettingRequest"
    | .error e, _ => .error e
    | _, .error e => .error e
  | _ => .error "failed to unmarshal ContainerModifySettings"

/-- The spec-side association between a recognised ResourceType and the
concrete record its raw settings decode into. -/
def settingsMatch (rt : String) (s : Json) (r : SettingsRecord) : Prop :=
  (rt = ResourceTypeSCSIDevice ∧ r = .scsiDevice s)
  ∨ (rt = ResourceTypeMappedVirtualDisk ∧ r = .mappedVirtualDisk s)
  ∨ (rt = ResourceTypeMappedDirectory ∧ r = .mappedDirectory s)
  ∨ (rt = ResourceTypeVPMemDevice ∧ r = .vpmemDevice s)
  ∨ (rt = ResourceTypeCombinedLayers ∧ r = .combinedLayers s)
  ∨ (rt = ResourceTypeNetwork ∧ r = .networkAdapter s)
  ∨ (rt = ResourceTypeVPCIDevice ∧ r = .vpciDevice s)
  ∨ (rt = ResourceTypeContainerConstraints ∧ r = .containerConstraints s)
  ∨ (rt = ResourceTypeSecurityPolicy ∧ r = .securityPolicy s)
  ∨ (rt = ResourceTypePolicyFragment ∧ r = .policyFragment s)

/-- The recognised discriminator values. -/
def recognisedResourceTypes : List String :=
  [ResourceTypeSCSIDevice, ResourceTypeMappedVirtualDisk,
   ResourceTypeMappedDirectory, ResourceTypeVPMemDevice,
   ResourceTypeCombinedLayers, ResourceTypeNetwork, ResourceTypeVPCIDevice,
   ResourceTypeContainerConstraints, ResourceTypeSecurityPolicy,
   ResourceTypePolicyFragment]

/-! ## Helper lemmas: wrap arithmetic -/

theorem w64_val : W64 = 18446744073709551616 := by norm_num [W64]

theorem incWrap_small {n : Nat} (h : n + 1 < W64) : incWrap n = n + 1 := by
  rw [incWrap, Nat.mod_eq_of_lt h]

theorem decWrap_pos {n : Nat} (h0 : 0 < n) (h1 : n < W64) : decWrap n = n - 1 := by
  rw [w64_val] at h1
  rw [decWrap, w64_val]
  omega

/-! ## Helper lemmas: trackLoop -/

theorem trackLoop_fresh_not_matched {controller lun : Nat} {p : String}
    {c : MountConfig} :
    ∀ (L : List (Option Mount)) (i : Nat) (fi fi' : Option Nat),
    trackLoop controller lun p c L i fi = .fresh fi' →
    ∀ (r : Nat) (m : Mount), L[r]? = some (some m) →
      ¬ KeyEq controller lun c m ∧ ¬ PathClash p m := by
  intro L
  induction L with
  | nil => intro i fi fi' _ r m hr; simp at hr
  | cons x rest ih =>
    intro i fi fi' h r m hr
    match x with
    | none =>
      cases r with
      | zero => simp at hr
      | succ r' =>
        simp only [List.getElem?_cons_succ] at hr
        exact ih (i + 1) _ fi' (by simpa [trackLoop] using h) r' m hr
    | some m0 =>
      simp only [trackLoop] at h
      split at h
      · exact absurd h (by simp)
      · split at h
        · exact absurd h (by simp)
        · cases r with
          | zero =>
            simp only [List.getElem?_cons_zero, Option.some.injEq] at hr
            cases hr
            constructor <;> assumption
          | succ r' =>
            simp only [List.getElem?_cons_succ] at hr
            exact ih (i + 1) fi fi' h r' m hr

theorem trackLoop_keep_free {controller lun : Nat} {p : String}
    {c : MountConfig} :
    ∀ (L : List (Option Mount)) (i j : Nat) (fi' : Option Nat),
    trackLoop controller lun p c L i (some j) = .fresh fi' → fi' = some j := by
  intro L
  induction L with
  | nil => intro i j fi' h; simpa [trackLoop] using h.symm
  | cons x rest ih =>
    intro i j fi' h
    match x with
    | none => exact ih (i + 1) j fi' (by simpa [trackLoop] using h)
    | some m0 =>
      simp only [trackLoop] at h
      split at h
      · exact absurd h (by simp)
      · split at h
        · exact absurd h (by simp)
        · exact ih (i + 1) j fi' h

theorem trackLoop_fresh_free {controller lun : Nat} {p : String}
    {c : MountConfig} :
    ∀ (L : List (Option Mount)) (i : Nat) (fi' : Option Nat),
    trackLoop controller lun p c L i none = .fresh fi' →
    (fi' = none ∧ ∀ r, r < L.length → L[r]? ≠ some none)
    ∨ (∃ r, fi' = some (i + r) ∧ L[r]? = some none
        ∧ ∀ r', r' < r → L[r']? ≠ some none) := by
  intro L
  induction L with
  | nil =>
    intro i fi' h
    left
    refine ⟨by simpa [trackLoop] using h.symm, ?_⟩
    intro r hr
    simp at hr
  | cons x rest ih =>
    intro i fi' h
    match x with
    | none =>
      right
      refine ⟨0, ?_, by simp, by simp⟩
      have h' : trackLoop controller lun p c rest (i + 1) (some i) = .fresh fi' := by
        simpa [trackLoop] using h
      simpa using trackLoop_keep_free rest (i + 1) i fi' h'
    | some m0 =>
      simp only [trackLoop] at h
      split at h
      · exact absurd h (by simp)
      · split at h
        · exact absurd h (by simp)
        · rcases ih (i + 1) fi' h with ⟨h1, h2⟩ | ⟨r, h1, h2, h3⟩
          · left
            refine ⟨h1, ?_⟩
            intro r hr
            cases r with
            | zero => simp
            | succ r' =>
              simp only [List.getElem?_cons_succ]
              exact h2 r' (by simpa using hr)
          · right
            refine ⟨r + 1, by rw [h1]; congr 1; omega, by simpa using h2, ?_⟩
            intro r' hr'
            cases r' with
            | zero => simp
            | succ r'' =>
              simp only [List.getElem?_cons_succ]
              exact h3 r'' (by omega)

theorem trackLoop_dedup_at {controller lun : Nat} {p : String}
    {c : MountConfig} :
    ∀ (L : List (Option Mount)) (i : Nat) (fi : Option Nat) (j : Nat) (m : Mount),
    L[j]? = some (some m) → KeyEq controller lun c m →
    (∀ j', j' < j → ∀ e, L[j']? = some (some e) →
      ¬ KeyEq controller lun c e ∧ ¬ PathClash p e) →
    trackLoop controller lun p c L i fi = .dedup (i + j) m := by
  intro L
  induction L with
  | nil => intro i fi j m hj; simp at hj
  | cons x rest ih =>
    intro i fi j m hj hk hpre
    match x with
    | none =>
      cases j with
      | zero => simp at hj
      | succ j' =>
        simp only [List.getElem?_cons_succ] at hj
        have : trackLoop controller lun p c rest (i + 1)
            (if fi = none then some i else fi) = .dedup ((i + 1) + j') m := by
          refine ih (i + 1) _ j' m hj hk ?_
          intro j'' hj'' e he
          exact hpre (j'' + 1) (by omega) e (by simpa using he)
        rw [trackLoop]
        rw [this]
        congr 1
        omega
    | some m0 =>
      cases j with
      | zero =>
        simp only [List.getElem?_cons_zero, Option.some.injEq] at hj
        cases hj
        simp [trackLoop, if_pos hk]
      | succ j' =>
        simp only [List.getElem?_cons_succ] at hj
        have h0 := hpre 0 (by omega) m0 (by simp)
        rw [trackLoop, if_neg h0.1, if_neg h0.2]
        have : trackLoop controller lun p c rest (i + 1) fi = .dedup ((i + 1) + j') m := by
          refine ih (i + 1) fi j' m hj hk ?_
          intro j'' hj'' e he
          exact hpre (j'' + 1) (by omega) e (by simpa using he)
        rw [this]
        congr 1
        omega

theorem trackLoop_conflict_of {controller lun : Nat} {p : String}
    {c : MountConfig} :
    ∀ (L : List (Option Mount)) (i : Nat) (fi : Option Nat),
    (∀ (r : Nat) (e : Mount), L[r]? = some (some e) → ¬ KeyEq controller lun c e) →
    (∃ (r : Nat) (e : Mount), L[r]? = some (some e) ∧ PathClash p e) →
    trackLoop controller lun p c L i fi = .conflict := by
  intro L
  induction L with
  | nil => intro i fi _ hex; obtain ⟨r, e, hr, _⟩ := hex; simp at hr
  | cons x rest ih =>
    intro i fi hnk hex
    match x with
    | none =>
      rw [trackLoop]
      refine ih (i + 1) _ ?_ ?_
      · intro r e hr
        exact hnk (r + 1) e (by simpa using hr)
      · obtain ⟨r, e, hr, hcl⟩ := hex
        cases r with
        | zero => simp at hr
        | succ r' =>
          exact ⟨r', e, by simpa using hr, hcl⟩
    | some m0 =>
      have hk0 : ¬ KeyEq controller lun c m0 := hnk 0 m0 (by simp)
      rw [trackLoop, if_neg hk0]
      by_cases hcl0 : PathClash p m0
      · rw [if_pos hcl0]
      · rw [if_neg hcl0]
        refine ih (i + 1) fi ?_ ?_
        · intro r e hr
          exact hnk (r + 1) e (by simpa using hr)
        · obtain ⟨r, e, hr, hcl⟩ := hex
          cases r with
          | zero =>
            simp only [List.getElem?_cons_zero, Option.some.injEq] at hr
            cases hr
            exact absurd hcl hcl0
          | succ r' =>
            exact ⟨r', e, by simpa using hr, hcl⟩

/-! ## Helper lemmas: trackMount -/

theorem trackMount_dedup_spec {mm : MountManager} {controller lun : Nat}
    {p : String} {c : MountConfig} {j : Nat} {m : Mount}
    (hj : mm.mounts[j]? = some (some m)) (hk : KeyEq controller lun c m)
    (hpre : ∀ j', j' < j → ∀ e, mm.mounts[j']? = some (some e) →
      ¬ KeyEq controller lun c e ∧ ¬ PathClash p e) :
    trackMount mm controller lun p c =
      (.ok ({ m with refCount := incWrap m.refCount }, true),
       { mm with mounts :=
          mm.mounts.set j (some { m with refCount := incWrap m.refCount }) }) := by
  have hd := trackLoop_dedup_at mm.mounts 0 none j m hj hk hpre
  rw [trackMount, hd]
  simp

theorem trackMount_conflict_spec {mm : MountManager} {controller lun : Nat}
    {p : String} {c : MountConfig}
    (hnk : ∀ (r : Nat) (e : Mount), mm.mounts[r]? = some (some e) →
      ¬ KeyEq controller lun c e)
    (hex : ∃ (r : Nat) (e : Mount), mm.mounts[r]? = some (some e) ∧ PathClash p e) :
    trackMount mm controller lun p c =
      (.error ("cannot mount over an existing mountpoint: " ++ p), mm) := by
  have hc := trackLoop_conflict_of mm.mounts 0 none hnk hex
  rw [trackMount, hc]

theorem trackMount_fresh_spec {mm : MountManager} {controller lun : Nat}
    {p : String} {c : MountConfig} {m : Mount} {mm' : MountManager}
    (h : trackMount mm controller lun p c = (.ok (m, false), mm')) :
    m.refCount = 1 ∧ m.waitErr = none ∧ m.controller = controller ∧ m.lun = lun
    ∧ m.config = c
    ∧ (∀ (r : Nat) (e : Mount), mm.mounts[r]? = some (some e) →
        ¬ KeyEq controller lun c e ∧ ¬ PathClash p e)
    ∧ mm'.mounts[m.index]? = some (some m)
    ∧ (∀ (r : Nat), r ≠ m.index → mm'.mounts[r]? = mm.mounts[r]?)
    ∧ ((mm.mounts[m.index]? = some none
          ∧ (∀ r, r < m.index → mm.mounts[r]? ≠ some none)
          ∧ mm'.mounts.length = mm.mounts.length)
       ∨ (m.index = mm.mounts.length
          ∧ mm'.mounts = mm.mounts ++ [some m]
          ∧ ∀ r, r < mm.mounts.length → mm.mounts[r]? ≠ some none))
    ∧ (p = "" → m.path = mm.mountFmt m.index)
    ∧ (p ≠ "" → m.path = p)
    ∧ mm'.mountFmt = mm.mountFmt := by
  rw [trackMount] at h
  cases ht : trackLoop controller lun p c mm.mounts 0 none with
  | dedup j md => rw [ht] at h; simp at h
  | conflict => rw [ht] at h; simp at h
  | fresh fi =>
    rw [ht] at h
    simp only [Prod.mk.injEq, Except.ok.injEq] at h
    obtain ⟨⟨hm, -⟩, hmm'⟩ := h
    have hnm := trackLoop_fresh_not_matched mm.mounts 0 none fi ht
    have hfree := trackLoop_fresh_free mm.mounts 0 fi ht
    rcases hfree with ⟨hfi, hnone⟩ | ⟨r0, hfi, hat, hbefore⟩
    · -- no free slot: append at the end
      subst hfi
      simp only at hm hmm'
      subst hm
      subst hmm'
      refine ⟨rfl, rfl, rfl, rfl, rfl, hnm, ?_, ?_, ?_, ?_, ?_, rfl⟩
      · exact List.getElem?_concat_length mm.mounts _
      · intro r hr
        simp only at hr ⊢
        rcases Nat.lt_or_ge r mm.mounts.length with hlt | hge
        · exact List.getElem?_append_left hlt
        · have h1 : (mm.mounts ++
              [some { path := if p = "" then mm.mountFmt mm.mounts.length else p,
                      index := mm.mounts.length, controller := controller, lun := lun,
                      config := c, waitErr := none, refCount := 1 }])[r]? = none := by
            apply List.getElem?_eq_none
            simp only [List.length_append, List.length_cons, List.length_nil]
            omega
          have h2 : mm.mounts[r]? = none := List.getElem?_eq_none (by omega)
          rw [h1, h2]
      · right
        exact ⟨rfl, rfl, fun r hr => hnone r hr⟩
      · intro hp
        simp [hp]
      · intro hp
        simp [hp]
    · -- reuse the lowest free slot
      subst hfi
      simp only [Nat.zero_add] at hm hmm'
      subst hm
      subst hmm'
      have hr0lt : r0 < mm.mounts.length := (List.getElem?_eq_some_iff.mp hat).1
      refine ⟨rfl, rfl, rfl, rfl, rfl, hnm, ?_, ?_, ?_, ?_, ?_, rfl⟩
      · exact List.getElem?_set_self (by simpa using hr0lt)
      · intro r hr
        exact List.getElem?_set_ne (by simpa using fun h => hr h.symm)
      · left
        exact ⟨hat, fun r hr => hbefore r hr, by simp⟩
      · intro hp
        simp [hp]
      · intro hp
        simp [hp]

/-! ## Helper lemmas: unmountTarget -/

theorem unmountTarget_match {p : String} :
    ∀ (L : List (Option Mount)) (i : Nat),
    (∃ (r : Nat) (m : Mount), L[r]? = some (some m) ∧ m.path = p) →
    ∃ (r : Nat) (m : Mount), unmountTarget p L i = some (i + r, m)
      ∧ L[r]? = some (some m) ∧ m.path = p
      ∧ ∀ (r' : Nat) (m' : Mount), r' < r → L[r']? = some (some m') →
          m'.path ≠ p := by
  intro L
  induction L with
  | nil => intro i h; obtain ⟨r, m, hr, -⟩ := h; simp at hr
  | cons x rest ih =>
    intro i h
    match x, rest with
    | some m0, [] =>
      obtain ⟨r, m, hr, hp⟩ := h
      match r with
      | 0 =>
        simp only [List.getElem?_cons_zero, Option.some.injEq] at hr
        cases hr
        exact ⟨0, m0, by simp [unmountTarget], by simp, hp, by omega⟩
      | r' + 1 => simp at hr
    | none, [] =>
      obtain ⟨r, m, hr, -⟩ := h
      match r with
      | 0 => simp at hr
      | r' + 1 => simp at hr
    | some m0, r1 :: rs =>
      by_cases hp0 : m0.path = p
      · exact ⟨0, m0, by simp [unmountTarget, hp0], by simp, hp0, by omega⟩
      · have hrest : ∃ (r : Nat) (m : Mount),
            (r1 :: rs)[r]? = some (some m) ∧ m.path = p := by
          obtain ⟨r, m, hr, hp⟩ := h
          match r with
          | 0 =>
            simp only [List.getElem?_cons_zero, Option.some.injEq] at hr
            cases hr
            exact absurd hp hp0
          | r' + 1 => exact ⟨r', m, by simpa using hr, hp⟩
        obtain ⟨r, m, hu, hr, hp, hpre⟩ := ih (i + 1) hrest
        refine ⟨r + 1, m, ?_, by simpa using hr, hp, ?_⟩
        · rw [unmountTarget]
          simp only [if_neg hp0]
          rw [hu]
          congr 2
          omega
        · intro r' m' hr' hm'
          match r' with
          | 0 =>
            simp only [List.getElem?_cons_zero, Option.some.injEq] at hm'
            cases hm'
            exact hp0
          | r'' + 1 =>
            exact hpre r'' m' (by omega) (by simpa using hm')
    | none, r1 :: rs =>
      have hrest : ∃ (r : Nat) (m : Mount),
          (r1 :: rs)[r]? = some (some m) ∧ m.path = p := by
        obtain ⟨r, m, hr, hp⟩ := h
        match r with
        | 0 => simp at hr
        | r' + 1 => exact ⟨r', m, by simpa using hr, hp⟩
      obtain ⟨r, m, hu, hr, hp, hpre⟩ := ih (i + 1) hrest
      refine ⟨r + 1, m, ?_, by simpa using hr, hp, ?_⟩
      · rw [unmountTarget]
        rw [hu]
        congr 2
        omega
      · intro r' m' hr' hm'
        match r' with
        | 0 => simp at hm'
        | r'' + 1 =>
          exact hpre r'' m' (by omega) (by simpa using hm')

theorem unmountTarget_nomatch {p : String} :
    ∀ (L : List (Option Mount)) (i : Nat),
    (∀ (r : Nat) (m : Mount), L[r]? = some (some m) → m.path ≠ p) →
    (unmountTarget p L i = none ∧ (L = [] ∨ L.getLast? = some none))
    ∨ (∃ m : Mount, unmountTarget p L i = some (i + (L.length - 1), m)
        ∧ L.getLast? = some (some m) ∧ m.path ≠ p) := by
  intro L
  induction L with
  | nil => intro i _; exact .inl ⟨rfl, .inl rfl⟩
  | cons x rest ih =>
    intro i hno
    match x, rest with
    | some m0, [] =>
      right
      exact ⟨m0, by simp [unmountTarget], rfl, hno 0 m0 (by simp)⟩
    | none, [] =>
      left
      exact ⟨rfl, .inr rfl⟩
    | some m0, r1 :: rs =>
      have hp0 : m0.path ≠ p := hno 0 m0 (by simp)
      have hno' : ∀ (r : Nat) (m : Mount), (r1 :: rs)[r]? = some (some m) →
          m.path ≠ p := fun r m hr => hno (r + 1) m (by simpa using hr)
      rcases ih (i + 1) hno' with ⟨h1, h2⟩ | ⟨m, h1, h2, h3⟩
      · left
        refine ⟨?_, ?_⟩
        · rw [unmountTarget, if_neg hp0]
          exact h1
        · rcases h2 with h2 | h2
          · exact absurd h2 (by simp)
          · right
            rw [List.getLast?_cons_cons]
            exact h2
      · right
        refine ⟨m, ?_, ?_, h3⟩
        · rw [unmountTarget, if_neg hp0]
          rw [h1]
          congr 2
          simp only [List.length_cons]
          omega
        · rw [List.getLast?_cons_cons]
          exact h2
    | none, r1 :: rs =>
      have hno' : ∀ (r : Nat) (m : Mount), (r1 :: rs)[r]? = some (some m) →
          m.path ≠ p := fun r m hr => hno (r + 1) m (by simpa using hr)
      rcases ih (i + 1) hno' with ⟨h1, h2⟩ | ⟨m, h1, h2, h3⟩
      · left
        refine ⟨by rw [unmountTarget]; exact h1, ?_⟩
        rcases h2 with h2 | h2
        · exact absurd h2 (by simp)
        · right
          rw [List.getLast?_cons_cons]
          exact h2
      · right
        refine ⟨m, ?_, ?_, h3⟩
        · rw [unmountTarget]
          rw [h1]
          congr 2
          simp only [List.length_cons]
          omega
        · rw [List.getLast?_cons_cons]
          exact h2

/-! ## Helper lemmas: single-key mount/unmount steps -/

theorem mount_step_empty {gen : Nat → String} {controller lun : Nat}
    {c : MountConfig} :
    mount ⟨[], gen⟩ alwaysOk controller lun "" c
      = (.ok (gen 0), ⟨[some (singleKeyEntry gen controller lun c 1)], gen⟩, true) := rfl

theorem mount_step_tomb {gen : Nat → String} {controller lun : Nat}
    {c : MountConfig} :
    mount ⟨[none], gen⟩ alwaysOk controller lun "" c
      = (.ok (gen 0), ⟨[some (singleKeyEntry gen controller lun c 1)], gen⟩, true) := rfl

theorem mount_step_dedup {gen : Nat → String} {controller lun : Nat}
    {c : MountConfig} {n : Nat} (hn : n + 1 < W64) :
    mount ⟨[some (singleKeyEntry gen controller lun c n)], gen⟩ alwaysOk
        controller lun "" c
      = (.ok (gen 0),
         ⟨[some (singleKeyEntry gen controller lun c (n + 1))], gen⟩, false) := by
  have hj : (([some (singleKeyEntry gen controller lun c n)] :
      List (Option Mount)))[0]? = some (some (singleKeyEntry gen controller lun c n)) := rfl
  have hk : KeyEq controller lun (sortConfig c) (singleKeyEntry gen controller lun c n) :=
    ⟨rfl, rfl, rfl⟩
  have hd := @trackMount_dedup_spec
    ⟨[some (singleKeyEntry gen controller lun c n)], gen⟩ controller lun ""
    (sortConfig c) 0 (singleKeyEntry gen controller lun c n)
    hj hk (fun j' hj' e _ => absurd hj' (by omega))
  rw [mount]
  simp only [hd]
  simp [singleKeyEntry, subscriberFinish, incWrap_small hn]

theorem unmount_step_dec {gen : Nat → String} {controller lun : Nat}
    {c : MountConfig} {n : Nat} (h2 : 2 ≤ n) (hW : n < W64) :
    unmount ⟨[some (singleKeyEntry gen controller lun c n)], gen⟩ alwaysOk (gen 0)
      = (.ok, ⟨[some (singleKeyEntry gen controller lun c (n - 1))], gen⟩, false) := by
  have hdec : decWrap n = n - 1 := decWrap_pos (by omega) hW
  have h0 : unmount ⟨[some (singleKeyEntry gen controller lun c n)], gen⟩ alwaysOk (gen 0)
      = (if decWrap n > 0 then
          (.ok, ⟨[some { path := gen 0, index := 0, controller := controller, lun := lun,
                         config := sortConfig c, waitErr := none,
                         refCount := decWrap n }], gen⟩, false)
         else (.ok, ⟨[none], gen⟩, true)) := rfl
  rw [h0, hdec, if_pos (by omega : n - 1 > 0)]
  rfl

theorem unmount_step_release {gen : Nat → String} {controller lun : Nat}
    {c : MountConfig} :
    unmount ⟨[some (singleKeyEntry gen controller lun c 1)], gen⟩ alwaysOk (gen 0)
      = (.ok, ⟨[none], gen⟩, true) := by
  have hdec : decWrap 1 = 0 := by rw [decWrap, w64_val]
  have h0 : unmount ⟨[some (singleKeyEntry gen controller lun c 1)], gen⟩ alwaysOk (gen 0)
      = (if decWrap 1 > 0 then
          (.ok, ⟨[some { path := gen 0, index := 0, controller := controller, lun := lun,
                         config := sortConfig c, waitErr := none,
                         refCount := decWrap 1 }], gen⟩, false)
         else (.ok, ⟨[none], gen⟩, true)) := rfl
  rw [h0, hdec, if_neg (by omega : ¬ (0 : Nat) > 0)]

/-! ## Helper lemmas: operation sequences -/

theorem balanced_count :
    ∀ (ops : List MMOp) (n : Nat), balancedFrom n ops = true →
    ops.count MMOp.unmnt ≤ n + ops.count MMOp.mnt
    ∧ (specCounters n ops).1 = n + ops.count MMOp.mnt - ops.count MMOp.unmnt := by
  have e1 : (MMOp.mnt == MMOp.unmnt) = false := rfl
  have e2 : (MMOp.unmnt == MMOp.mnt) = false := rfl
  have e3 : (MMOp.mnt == MMOp.mnt) = true := rfl
  have e4 : (MMOp.unmnt == MMOp.unmnt) = true := rfl
  intro ops
  induction ops with
  | nil => intro n _; simp [specCounters]
  | cons op rest ih =>
    intro n h
    match op with
    | MMOp.mnt =>
      have h' : balancedFrom (n + 1) rest = true := by simpa [balancedFrom] using h
      obtain ⟨h1, h2⟩ := ih (n + 1) h'
      constructor
      · simp [List.count_cons, e1, e2, e3, e4]
        omega
      · simp [specCounters, List.count_cons, e1, e2, e3, e4]
        omega
    | MMOp.unmnt =>
      have h0 : 0 < n ∧ balancedFrom (n - 1) rest = true := by
        simpa [balancedFrom] using h
      obtain ⟨h1, h2⟩ := ih (n - 1) h0.2
      constructor
      · simp [List.count_cons, e1, e2, e3, e4]
        omega
      · simp [specCounters, List.count_cons, e1, e2, e3, e4]
        omega

theorem runOps_spec {gen : Nat → String} {controller lun : Nat} {c : MountConfig} :
    ∀ (ops : List MMOp) (n : Nat) (mm : MountManager) (mc uc : Nat),
    mm.mountFmt = gen →
    ((n = 0 ∧ (mm.mounts = [] ∨ mm.mounts = [none]))
      ∨ (0 < n ∧ mm.mounts = [some (singleKeyEntry gen controller lun c n)])) →
    balancedFrom n ops = true →
    n + ops.length < W64 →
    ∃ mmF : MountManager,
      runOps controller lun c ops (mm, mc, uc)
        = (mmF, mc + (specCounters n ops).2.1, uc + (specCounters n ops).2.2)
      ∧ mmF.mountFmt = gen
      ∧ (((specCounters n ops).1 = 0 ∧ (mmF.mounts = [] ∨ mmF.mounts = [none]))
        ∨ (0 < (specCounters n ops).1
            ∧ mmF.mounts
              = [some (singleKeyEntry gen controller lun c (specCounters n ops).1)])) := by
  intro ops
  induction ops with
  | nil =>
    intro n mm mc uc hfmt hshape _ _
    refine ⟨mm, by simp [runOps, specCounters], hfmt, ?_⟩
    simp only [specCounters]
    exact hshape
  | cons op rest ih =>
    intro n mm mc uc hfmt hshape hbal hlen
    obtain ⟨mounts0, fmt0⟩ := mm
    replace hfmt : gen = fmt0 := hfmt.symm
    subst hfmt
    match op with
    | MMOp.mnt =>
      have hbal' : balancedFrom (n + 1) rest = true := by
        simpa [balancedFrom] using hbal
      have hlen' : (n + 1) + rest.length < W64 := by
        simp only [List.length_cons] at hlen
        omega
      rcases hshape with ⟨h1, h2⟩ | ⟨h1, h2⟩
      · -- count is zero: empty or tombstoned table; a fresh mount happens
        subst h1
        replace h2 : mounts0 = [] ∨ mounts0 = [none] := h2
        have hone : runOps controller lun c (MMOp.mnt :: rest)
              (⟨mounts0, gen⟩, mc, uc)
            = runOps controller lun c rest
                (⟨[some (singleKeyEntry gen controller lun c 1)], gen⟩, mc + 1, uc) := by
          rcases h2 with h2 | h2 <;> subst h2
          · rw [runOps, mount_step_empty]
            rfl
          · rw [runOps, mount_step_tomb]
            rfl

        obtain ⟨mmF, hrun, hf, hsh⟩ :=
          ih 1 ⟨[some (singleKeyEntry gen controller lun c 1)], gen⟩
            (mc + 1) uc rfl (.inr ⟨by omega, rfl⟩) hbal' hlen'
        refine ⟨mmF, ?_, hf, ?_⟩
        · have ha : mc + (specCounters 0 (MMOp.mnt :: rest)).2.1
              = mc + 1 + (specCounters 1 rest).2.1 := by
            simp [specCounters] <;> omega
          have hbx : uc + (specCounters 0 (MMOp.mnt :: rest)).2.2
              = uc + (specCounters 1 rest).2.2 := by
            simp [specCounters] <;> omega
          rw [hone, hrun, ha, hbx]
        · simpa [specCounters] using hsh
      · -- live entry: deduplication bumps the count
        replace h2 : mounts0 = [some (singleKeyEntry gen controller lun c n)] := h2
        subst h2
        have hone : runOps controller lun c (MMOp.mnt :: rest)
              (⟨[some (singleKeyEntry gen controller lun c n)], gen⟩, mc, uc)
            = runOps controller lun c rest
                (⟨[some (singleKeyEntry gen controller lun c (n + 1))], gen⟩, mc, uc) := by
          rw [runOps, mount_step_dedup
            (by simp only [List.length_cons] at hlen; omega)]
          rfl

        obtain ⟨mmF, hrun, hf, hsh⟩ :=
          ih (n + 1) ⟨[some (singleKeyEntry gen controller lun c (n + 1))], gen⟩
            mc uc rfl (.inr ⟨by omega, rfl⟩) hbal' hlen'
        have hn0 : ¬ n = 0 := by omega
        refine ⟨mmF, ?_, hf, ?_⟩
        · have ha : mc + (specCounters n (MMOp.mnt :: rest)).2.1
              = mc + (specCounters (n + 1) rest).2.1 := by
            simp [specCounters, hn0] <;> omega
          have hbx : uc + (specCounters n (MMOp.mnt :: rest)).2.2
              = uc + (specCounters (n + 1) rest).2.2 := by
            simp [specCounters, hn0] <;> omega
          rw [hone, hrun, ha, hbx]
        · simpa [specCounters] using hsh
    | MMOp.unmnt =>
      have hb : 0 < n ∧ balancedFrom (n - 1) rest = true := by
        simpa [balancedFrom] using hbal
      have hlen' : (n - 1) + rest.length < W64 := by
        simp only [List.length_cons] at hlen
        omega
      rcases hshape with ⟨h1, -⟩ | ⟨-, h2⟩
      · omega
      · replace h2 : mounts0 = [some (singleKeyEntry gen controller lun c n)] := h2
        subst h2
        rcases Nat.lt_or_ge n 2 with hn2 | hn2
        · -- n = 1: the count reaches zero and the device is released
          have hn1 : n = 1 := by omega
          subst hn1
          have hone : runOps controller lun c (MMOp.unmnt :: rest)
                (⟨[some (singleKeyEntry gen controller lun c 1)], gen⟩, mc, uc)
              = runOps controller lun c rest (⟨[none], gen⟩, mc, uc + 1) := by
            rw [runOps, unmount_step_release]
            rfl
          obtain ⟨mmF, hrun, hf, hsh⟩ :=
            ih 0 ⟨[none], gen⟩ mc (uc + 1) rfl (.inl ⟨rfl, .inr rfl⟩) hb.2 hlen'
          refine ⟨mmF, ?_, hf, ?_⟩
          · have ha : mc + (specCounters 1 (MMOp.unmnt :: rest)).2.1
                = mc + (specCounters 0 rest).2.1 := by
              simp [specCounters] <;> omega
            have hbx : uc + (specCounters 1 (MMOp.unmnt :: rest)).2.2
                = uc + 1 + (specCounters 0 rest).2.2 := by
              simp [specCounters] <;> omega
            rw [hone, hrun, ha, hbx]
          · simpa [specCounters] using hsh
        · -- n ≥ 2: the count stays positive, no release
          have hone : runOps controller lun c (MMOp.unmnt :: rest)
                (⟨[some (singleKeyEntry gen controller lun c n)], gen⟩, mc, uc)
              = runOps controller lun c rest
                  (⟨[some (singleKeyEntry gen controller lun c (n - 1))], gen⟩, mc, uc) := by
            rw [runOps, unmount_step_dec hn2
              (by simp only [List.length_cons] at hlen; omega)]
            rfl
          obtain ⟨mmF, hrun, hf, hsh⟩ :=
            ih (n - 1) ⟨[some (singleKeyEntry gen controller lun c (n - 1))], gen⟩
              mc uc rfl (.inr ⟨by omega, rfl⟩) hb.2 hlen'
          have hn1 : ¬ n = 1 := by omega
          refine ⟨mmF, ?_, hf, ?_⟩
          · have ha : mc + (specCounters n (MMOp.unmnt :: rest)).2.1
                = mc + (specCounters (n - 1) rest).2.1 := by
              simp [specCounters, hn1] <;> omega
            have hbx : uc + (specCounters n (MMOp.unmnt :: rest)).2.2
                = uc + (specCounters (n - 1) rest).2.2 := by
              simp [specCounters, hn1] <;> omega
            rw [hone, hrun, ha, hbx]
          · simpa [specCounters] using hsh

/-! ## Helper lemmas: table invariant preservation -/

theorem trackLoop_dedup_sound {controller lun : Nat} {p : String}
    {c : MountConfig} :
    ∀ (L : List (Option Mount)) (i0 : Nat) (fi : Option Nat) (j : Nat) (m : Mount),
    trackLoop controller lun p c L i0 fi = .dedup j m →
    i0 ≤ j ∧ L[j - i0]? = some (some m) := by
  intro L
  induction L with
  | nil => intro i0 fi j m h; simp [trackLoop] at h
  | cons x rest ih =>
    intro i0 fi j m h
    match x with
    | none =>
      have h' : trackLoop controller lun p c rest (i0 + 1)
          (if fi = none then some i0 else fi) = .dedup j m := by
        simpa [trackLoop] using h
      obtain ⟨h1, h2⟩ := ih (i0 + 1) _ j m h'
      refine ⟨by omega, ?_⟩
      have : j - i0 = (j - (i0 + 1)) + 1 := by omega
      rw [this]
      simpa using h2
    | some m0 =>
      rw [trackLoop] at h
      split at h
      · simp only [TrackResult.dedup.injEq] at h
        obtain ⟨h1, h2⟩ := h
        subst h1
        subst h2
        simp
      · split at h
        · exact absurd h (by simp)
        · obtain ⟨h1, h2⟩ := ih (i0 + 1) fi j m h
          refine ⟨by omega, ?_⟩
          have : j - i0 = (j - (i0 + 1)) + 1 := by omega
          rw [this]
          simpa using h2

theorem unmountTarget_lookup {p : String} :
    ∀ (L : List (Option Mount)) (i0 : Nat) (j : Nat) (m : Mount),
    unmountTarget p L i0 = some (j, m) →
    i0 ≤ j ∧ L[j - i0]? = some (some m) := by
  intro L
  induction L with
  | nil => intro i0 j m h; simp [unmountTarget] at h
  | cons x rest ih =>
    intro i0 j m h
    match x, rest with
    | some m0, [] =>
      rw [unmountTarget] at h
      simp only [Option.some.injEq, Prod.mk.injEq] at h
      obtain ⟨h1, h2⟩ := h
      subst h1
      subst h2
      simp
    | none, [] =>
      rw [unmountTarget] at h
      exact absurd h (by simp)
    | some m0, r1 :: rs =>
      rw [unmountTarget] at h
      split at h
      · simp only [Option.some.injEq, Prod.mk.injEq] at h
        obtain ⟨h1, h2⟩ := h
        subst h1
        subst h2
        simp
      · obtain ⟨h1, h2⟩ := ih (i0 + 1) j m h
        refine ⟨by omega, ?_⟩
        have : j - i0 = (j - (i0 + 1)) + 1 := by omega
        rw [this]
        simpa using h2
    | none, r1 :: rs =>
      rw [unmountTarget] at h
      obtain ⟨h1, h2⟩ := ih (i0 + 1) j m h
      refine ⟨by omega, ?_⟩
      have : j - i0 = (j - (i0 + 1)) + 1 := by omega
      rw [this]
      simpa using h2

theorem tableOk_set_entry {gen : Nat → String} {mm : MountManager} {i : Nat}
    {m m' : Mount} (hok : TableOk gen mm) (hi : mm.mounts[i]? = some (some m))
    (hpath : m'.path = m.path) (hidx : m'.index = m.index) :
    TableOk gen { mm with mounts := mm.mounts.set i (some m') } := by
  obtain ⟨hfmt, hentry, hdist⟩ := hok
  refine ⟨hfmt, ?_, ?_⟩
  · intro r e hr
    by_cases hri : r = i
    · subst hri
      rw [List.getElem?_set_self' ] at hr
      rw [hi] at hr
      simp only [Option.map_some, Option.some.injEq] at hr
      cases hr
      obtain ⟨e1, e2⟩ := hentry r m hi
      exact ⟨by rw [hidx]; exact e1, by rw [hpath]; exact e2⟩
    · rw [List.getElem?_set_ne (fun hx => hri hx.symm)] at hr
      exact hentry r e hr
  · intro r s mr ms hrs hr hs hne
    by_cases hri : r = i
    · subst hri
      rw [List.getElem?_set_self'] at hr
      rw [hi] at hr
      simp only [Option.map_some, Option.some.injEq] at hr
      cases hr
      rw [List.getElem?_set_ne (fun hx => hrs hx)] at hs
      have := hdist r s m ms hrs hi hs (by rw [hpath] at hne; exact hne)
      rw [hpath]
      exact this
    · rw [List.getElem?_set_ne (fun hx => hri hx.symm)] at hr
      by_cases hsi : s = i
      · subst hsi
        rw [List.getElem?_set_self'] at hs
        rw [hi] at hs
        simp only [Option.map_some, Option.some.injEq] at hs
        cases hs
        rw [hpath]
        exact hdist r s mr m hrs hr hi hne
      · rw [List.getElem?_set_ne (fun hx => hsi hx.symm)] at hs
        exact hdist r s mr ms hrs hr hs hne

theorem tableOk_set_none {gen : Nat → String} {mm : MountManager} {k : Nat}
    (hok : TableOk gen mm) :
    TableOk gen { mm with mounts := mm.mounts.set k none } := by
  obtain ⟨hfmt, hentry, hdist⟩ := hok
  refine ⟨hfmt, ?_, ?_⟩
  · intro r e hr
    by_cases hrk : r = k
    · subst hrk
      rw [List.getElem?_set_self'] at hr
      cases hx : mm.mounts[r]? with
      | none => rw [hx] at hr; simp at hr
      | some v => rw [hx] at hr; simp at hr
    · rw [List.getElem?_set_ne (fun hx => hrk hx.symm)] at hr
      exact hentry r e hr
  · intro r s mr ms hrs hr hs hne
    by_cases hrk : r = k
    · subst hrk
      rw [List.getElem?_set_self'] at hr
      cases hx : mm.mounts[r]? with
      | none => rw [hx] at hr; simp at hr
      | some v => rw [hx] at hr; simp at hr
    · rw [List.getElem?_set_ne (fun hx => hrk hx.symm)] at hr
      by_cases hsk : s = k
      · subst hsk
        rw [List.getElem?_set_self'] at hs
        cases hx : mm.mounts[s]? with
        | none => rw [hx] at hs; simp at hs
        | some v => rw [hx] at hs; simp at hs
      · rw [List.getElem?_set_ne (fun hx => hsk hx.symm)] at hs
        exact hdist r s mr ms hrs hr hs hne

theorem trackMount_error_state {mm mm1 : MountManager} {controller lun : Nat}
    {p : String} {c : MountConfig} {e : String}
    (h : trackMount mm controller lun p c = (.error e, mm1)) : mm1 = mm := by
  rw [trackMount] at h
  cases ht : trackLoop controller lun p c mm.mounts 0 none <;> rw [ht] at h
  case dedup j m0 => simp at h
  case conflict =>
    simp only [Prod.mk.injEq] at h
    exact h.2.symm
  case fresh fi => simp at h

theorem trackMount_dedup_state {mm mm1 : MountManager} {controller lun : Nat}
    {p : String} {c : MountConfig} {m : Mount}
    (h : trackMount mm controller lun p c = (.ok (m, true), mm1)) :
    ∃ (j : Nat) (m0 : Mount), mm.mounts[j]? = some (some m0)
      ∧ m = { m0 with refCount := incWrap m0.refCount }
      ∧ mm1 = { mm with mounts := mm.mounts.set j (some m) } := by
  rw [trackMount] at h
  cases ht : trackLoop controller lun p c mm.mounts 0 none <;> rw [ht] at h
  case dedup j m0 =>
    simp only [Prod.mk.injEq, Except.ok.injEq] at h
    obtain ⟨⟨hm, -⟩, hmm1⟩ := h
    obtain ⟨-, hj⟩ := trackLoop_dedup_sound mm.mounts 0 none j m0 ht
    subst hm
    exact ⟨j, m0, by simpa using hj, rfl, hmm1.symm⟩
  case conflict => simp at h
  case fresh fi => simp at h

theorem tableOk_fresh {gen : Nat → String} {mm : MountManager}
    {controller lun : Nat} {p : String} {c : MountConfig} {m : Mount}
    {mm1 : MountManager}
    (hinj : Function.Injective gen)
    (havoid : p = "" ∨ ∀ j, p ≠ gen j)
    (hok : TableOk gen mm)
    (h : trackMount mm controller lun p c = (.ok (m, false), mm1)) :
    TableOk gen mm1 := by
  obtain ⟨hfmt, hentry, hdist⟩ := hok
  obtain ⟨-, -, -, -, -, hnm, hat, hother, -, hpe, hpn, hfmt1⟩ :=
    trackMount_fresh_spec h
  have hfmt1' : mm1.mountFmt = gen := by rw [hfmt1, hfmt]
  have hpath : m.path = gen m.index ∨ ∀ j, m.path ≠ gen j := by
    by_cases hp0 : p = ""
    · left
      rw [hpe hp0, hfmt]
    · rcases havoid with hp | hp
      · exact absurd hp hp0
      · right
        rw [hpn hp0]
        exact hp
  refine ⟨hfmt1', ?_, ?_⟩
  · intro r e hr
    by_cases hri : r = m.index
    · subst hri
      rw [hat] at hr
      simp only [Option.some.injEq] at hr
      cases hr
      exact ⟨rfl, hpath⟩
    · rw [hother r hri] at hr
      exact hentry r e hr
  · intro r s mr ms hrs hr hs hne
    by_cases hri : r = m.index
    · subst hri
      rw [hat] at hr
      simp only [Option.some.injEq] at hr
      cases hr
      have hsne : s ≠ m.index := fun hx => hrs hx.symm
      rw [hother s hsne] at hs
      have hms := hentry s ms hs
      rcases hpath with hgen | hnr
      · rcases hms.2 with hg2 | hn2
        · rw [hgen, hg2]
          intro heq
          exact hrs (hinj heq)
        · rw [hgen]
          intro heq
          exact hn2 m.index heq.symm
      · have hp0 : p ≠ "" := by
          intro hp0
          exact hnr m.index (by rw [hpe hp0, hfmt])
        have hmp : m.path = p := hpn hp0
        have hcl := (hnm s ms hs).2
        rw [hmp]
        intro heq
        exact hcl ⟨hp0, heq⟩
    · by_cases hsi : s = m.index
      · subst hsi
        rw [hat] at hs
        simp only [Option.some.injEq] at hs
        cases hs
        rw [hother r hri] at hr
        have hmr := hentry r mr hr
        rcases hpath with hgen | hnr
        · rcases hmr.2 with hg2 | hn2
          · rw [hgen, hg2]
            intro heq
            exact hri (hinj heq)
          · rw [hgen]
            intro heq
            exact hn2 m.index heq
        · have hp0 : p ≠ "" := by
            intro hp0
            exact hnr m.index (by rw [hpe hp0, hfmt])
          have hmp : m.path = p := hpn hp0
          have hcl := (hnm r mr hr).2
          rw [hmp]
          intro heq
          exact hcl ⟨hp0, heq.symm⟩
      · rw [hother r hri] at hr
        rw [hother s hsi] at hs
        exact hdist r s mr ms hrs hr hs hne

theorem tableOk_mount {gen : Nat → String} {mm : MountManager} {o : MountOracle}
    {controller lun : Nat} {p : String} {c : MountConfig}
    (hinj : Function.Injective gen)
    (havoid : p = "" ∨ ∀ j, p ≠ gen j)
    (hok : TableOk gen mm) :
    TableOk gen (mount mm o controller lun p c).2.1 := by
  rcases htm : trackMount mm controller lun p (sortConfig c) with ⟨res, mm1⟩
  match res with
  | .error e =>
    have hst : (mount mm o controller lun p c).2.1 = mm1 := by
      simp only [mount, htm]
    rw [hst, trackMount_error_state htm]
    exact hok
  | .ok (m, true) =>
    obtain ⟨j, m0, hj, hm, hmm1⟩ := trackMount_dedup_state htm
    have hst : (mount mm o controller lun p c).2.1 = mm1 := by
      simp only [mount, htm]
    rw [hst, hmm1]
    exact tableOk_set_entry hok hj (by rw [hm]) (by rw [hm])
  | .ok (m, false) =>
    have hfr := tableOk_fresh hinj havoid hok htm
    have hst : (mount mm o controller lun p c).2.1
        = (pioneerFinish mm1 (o controller lun m.path (sortConfig c))
            controller lun m).2.1 := by
      simp only [mount, htm]
    rw [hst]
    cases horc : o controller lun m.path (sortConfig c) with
    | none => simpa [pioneerFinish] using hfr
    | some e =>
      simp only [pioneerFinish, untrackMount]
      exact tableOk_set_none hfr

set_option maxRecDepth 2000 in
theorem tableOk_unmount {gen : Nat → String} {mm : MountManager}
    {o : MountOracle} {p : String} (hok : TableOk gen mm) :
    TableOk gen (unmount mm o p).2.1 := by
  cases hu : unmountTarget p mm.mounts 0 with
  | none =>
    have hst : (unmount mm o p).2.1 = mm := by simp only [unmount, hu]
    rw [hst]
    exact hok
  | some pair =>
    obtain ⟨i, m⟩ := pair
    obtain ⟨-, hlook⟩ := unmountTarget_lookup mm.mounts 0 i m hu
    rw [Nat.sub_zero] at hlook
    by_cases hpos : decWrap m.refCount > 0
    · have hst : (unmount mm o p).2.1
          = { mm with mounts :=
              mm.mounts.set i (some { m with refCount := decWrap m.refCount }) } := by
        simp only [unmount, hu, if_pos hpos]
      rw [hst]
      exact tableOk_set_entry hok hlook rfl rfl
    · cases horc : o m.controller m.lun m.path m.config with
      | some e =>
        have hst : (unmount mm o p).2.1
            = { mm with mounts :=
                mm.mounts.set i (some { m with refCount := decWrap m.refCount }) } := by
          simp only [unmount, hu, if_neg hpos, horc]
        rw [hst]
        exact tableOk_set_entry hok hlook rfl rfl
      | none =>
        have hst : (unmount mm o p).2.1
            = { mm with mounts :=
                (mm.mounts.set i
                  (some { m with refCount := decWrap m.refCount })).set m.index none } := by
          rw [unmount, hu]
          dsimp only
          rw [if_neg hpos, horc]
        rw [hst]
        exact @tableOk_set_none gen
          { mm with mounts :=
              mm.mounts.set i (some { m with refCount := decWrap m.refCount }) }
          m.index (tableOk_set_entry hok hlook rfl rfl)

theorem unmount_not_panic {mm : MountManager} {o : MountOracle} {p : String}
    {i : Nat} {m : Mount} (hu : unmountTarget p mm.mounts 0 = some (i, m)) :
    (unmount mm o p).1 ≠ UnmountResult.panic := by
  by_cases hpos : decWrap m.refCount > 0
  · have hst : (unmount mm o p).1 = .ok := by
      simp only [unmount, hu, if_pos hpos]
    rw [hst]
    simp
  · cases horc : o m.controller m.lun m.path m.config with
    | some e =>
      have hst : (unmount mm o p).1
          = .failed ("unmount scsi controller " ++ toString m.controller
            ++ " lun " ++ toString m.lun ++ " at path " ++ m.path ++ ": " ++ e) := by
        simp only [unmount, hu, if_neg hpos, horc]
      rw [hst]
      simp
    | none =>
      have hst : (unmount mm o p).1 = .ok := by
        simp only [unmount, hu, if_neg hpos, horc]
      rw [hst]
      simp

/-! ## Claim theorems -/

/-- Claim C9: for every 32-bit request identifier R, GetResponseIdentifier R
clears the top nibble, sets it to the Response type value 0x2, and leaves
the lower 28 bits identical to R's. -/
theorem getResponseIdentifier_bits (R : Nat) (h : R < 2 ^ 32) :
    GetResponseIdentifier R % 2 ^ 28 = R % 2 ^ 28
    ∧ GetResponseIdentifier R / 2 ^ 28 = 2 := by
  have hmask : (0xFFFFFFFF ^^^ messageTypeMask) = 2 ^ 28 - 1 := by decide
  have h1 : R &&& (0xFFFFFFFF ^^^ messageTypeMask) = R % 2 ^ 28 := by
    rw [hmask]
    exact Nat.and_pow_two_sub_one_eq_mod R 28
  have hlt : R % 2 ^ 28 < 2 ^ 29 :=
    lt_trans (Nat.mod_lt _ (by norm_num)) (by norm_num)
  have h2 : GetResponseIdentifier R = 2 ^ 29 + R % 2 ^ 28 := by
    rw [GetResponseIdentifier, h1]
    have hm : MtResponse = 2 ^ 29 * 1 := by rw [MtResponse]; norm_num
    rw [hm, ← Nat.mul_add_lt_is_or hlt 1]
    norm_num
  have p28 : (2 : Nat) ^ 28 = 268435456 := by norm_num
  have p29 : (2 : Nat) ^ 29 = 536870912 := by norm_num
  constructor
  · rw [h2, p29, p28]
    omega
  · rw [h2, p29, p28]
    omega

/-- Witness for C9 at the NegotiateProtocol request identifier. -/
theorem getResponseIdentifier_bits_witness :
    (0x10100b01 : Nat) < 2 ^ 32
    ∧ (GetResponseIdentifier 0x10100b01 % 2 ^ 28 = 0x10100b01 % 2 ^ 28
       ∧ GetResponseIdentifier 0x10100b01 / 2 ^ 28 = 2) :=
  ⟨by decide, getResponseIdentifier_bits 0x10100b01 (by decide)⟩

/-- Claim C7: when trackMount creates a new entry, the assigned index is the
lowest-numbered free (tombstoned) slot, with the table extended by one slot
only when no free slot exists; an empty caller-supplied path is replaced by
the path derived from the index via the manager's format template, and a
non-empty one is kept. -/
theorem trackMount_lowest_free_slot {mm : MountManager} {controller lun : Nat}
    {p : String} {c : MountConfig} {m : Mount} {mm' : MountManager}
    (h : trackMount mm controller lun p c = (.ok (m, false), mm')) :
    ((mm.mounts[m.index]? = some none
        ∧ (∀ r, r < m.index → mm.mounts[r]? ≠ some none)
        ∧ mm'.mounts.length = mm.mounts.length)
      ∨ (m.index = mm.mounts.length
        ∧ mm'.mounts = mm.mounts ++ [some m]
        ∧ ∀ r, r < mm.mounts.length → mm.mounts[r]? ≠ some none))
    ∧ (p = "" → m.path = mm.mountFmt m.index)
    ∧ (p ≠ "" → m.path = p) := by
  obtain ⟨-, -, -, -, -, -, -, -, hslot, hpe, hpn, -⟩ := trackMount_fresh_spec h
  exact ⟨hslot, hpe, hpn⟩

/-- Witness for C7: a table whose slot 0 is live and slots 1, 2 are free;
the new entry takes slot 1 and the generated path "/m1". -/
theorem trackMount_lowest_free_slot_witness :
    trackMount ⟨[some sampleEntry0, none, none], sampleGen⟩ 0 0 "" sampleConfig
      = (.ok ((⟨"/m1", 1, 0, 0, sampleConfig, none, 1⟩ : Mount), false),
         ⟨[some sampleEntry0, some ⟨"/m1", 1, 0, 0, sampleConfig, none, 1⟩, none],
          sampleGen⟩)
    ∧ ((([some sampleEntry0, none, none] :
          List (Option Mount))[(1 : Nat)]? = some none
        ∧ (∀ r, r < 1 → ([some sampleEntry0, none, none] :
            List (Option Mount))[r]? ≠ some none)
        ∧ ([some sampleEntry0, some ⟨"/m1", 1, 0, 0, sampleConfig, none, 1⟩,
            none] : List (Option Mount)).length
            = ([some sampleEntry0, none, none] : List (Option Mount)).length)
      ∨ ((1 : Nat) = ([some sampleEntry0, none, none] :
            List (Option Mount)).length
        ∧ ([some sampleEntry0, some ⟨"/m1", 1, 0, 0, sampleConfig, none, 1⟩,
            none] : List (Option Mount))
            = [some sampleEntry0, none, none]
              ++ [some ⟨"/m1", 1, 0, 0, sampleConfig, none, 1⟩]
        ∧ ∀ r, r < ([some sampleEntry0, none, none] :
            List (Option Mount)).length →
            ([some sampleEntry0, none, none] :
              List (Option Mount))[r]? ≠ some none))
    ∧ ("" = "" → "/m1" = sampleGen 1)
    ∧ ("" ≠ "" → "/m1" = "") := by
  have h : trackMount ⟨[some sampleEntry0, none, none], sampleGen⟩ 0 0 ""
      sampleConfig
      = (.ok ((⟨"/m1", 1, 0, 0, sampleConfig, none, 1⟩ : Mount), false),
         ⟨[some sampleEntry0, some ⟨"/m1", 1, 0, 0, sampleConfig, none, 1⟩, none],
          sampleGen⟩) := rfl
  exact ⟨h, trackMount_lowest_free_slot h⟩

/-- Claim C3: if mounter.mount fails for a newly created entry, the entry is
removed from the table before readiness is published: at publication the
table holds no entry key-equal to the failed one, the wrapped error is
recorded in waitErr on the published object, and every waiting subscriber
observes exactly that error. -/
theorem mount_failure_removes_before_publish
    {mm : MountManager} {controller lun : Nat} {p : String} {c : MountConfig}
    {m : Mount} {mm1 : MountManager} (e : String)
    (htrack : trackMount mm controller lun p (sortConfig c)
      = (.ok (m, false), mm1)) :
    ∃ w : String,
      pioneerFinish mm1 (some e) controller lun m
        = (.error w, { mm1 with mounts := mm1.mounts.set m.index none },
           { m with waitErr := some w })
      ∧ (∀ (r : Nat) (e' : Mount),
          (mm1.mounts.set m.index none)[r]? = some (some e') →
          ¬ KeyEq controller lun (sortConfig c) e')
      ∧ subscriberFinish { m with waitErr := some w } = .error w := by
  obtain ⟨-, -, -, -, -, hnm, hat, hother, -, -, -, -⟩ :=
    trackMount_fresh_spec htrack
  refine ⟨_, rfl, ?_, rfl⟩
  intro r e' hr
  by_cases hri : r = m.index
  · subst hri
    rw [List.getElem?_set_self'] at hr
    rw [hat] at hr
    simp at hr
  · rw [List.getElem?_set_ne (fun hx => hri hx.symm)] at hr
    rw [hother r hri] at hr
    exact (hnm r e' hr).1

/-- Witness for C3: a failed pioneer mount on an empty table; the table
reverts to a single tombstone before the error is published. -/
theorem mount_failure_removes_before_publish_witness :
    trackMount ⟨[], sampleGen⟩ 0 0 "" (sortConfig sampleConfig)
      = (.ok ((⟨"/m0", 0, 0, 0, sampleConfig, none, 1⟩ : Mount), false),
         ⟨[some ⟨"/m0", 0, 0, 0, sampleConfig, none, 1⟩], sampleGen⟩)
    ∧ ∃ w : String,
      pioneerFinish ⟨[some ⟨"/m0", 0, 0, 0, sampleConfig, none, 1⟩], sampleGen⟩
          (some "device not ready") 0 0 (⟨"/m0", 0, 0, 0, sampleConfig, none, 1⟩ : Mount)
        = (.error w,
           ⟨[none], sampleGen⟩,
           { (⟨"/m0", 0, 0, 0, sampleConfig, none, 1⟩ : Mount) with
              waitErr := some w })
      ∧ (∀ (r : Nat) (e' : Mount),
          (([some ⟨"/m0", 0, 0, 0, sampleConfig, none, 1⟩] :
            List (Option Mount)).set 0 none)[r]? = some (some e') →
          ¬ KeyEq 0 0 (sortConfig sampleConfig) e')
      ∧ subscriberFinish { (⟨"/m0", 0, 0, 0, sampleConfig, none, 1⟩ : Mount) with
            waitErr := some w } = .error w := by
  have h : trackMount ⟨[], sampleGen⟩ 0 0 "" (sortConfig sampleConfig)
      = (.ok ((⟨"/m0", 0, 0, 0, sampleConfig, none, 1⟩ : Mount), false),
         ⟨[some ⟨"/m0", 0, 0, 0, sampleConfig, none, 1⟩], sampleGen⟩) := rfl
  exact ⟨h, mount_failure_removes_before_publish "device not ready" h⟩

/-- Claim C4 (amended): when the physical unmount of the last reference
fails, the error surfaces to the caller, but the entry is NOT untracked: it
remains in the table with refCount 0 and is removed only when the physical
unmount succeeds. -/
theorem unmount_failure_keeps_entry
    {mm : MountManager} {o : MountOracle} {p e : String} {i : Nat} {m : Mount}
    (htarget : unmountTarget p mm.mounts 0 = some (i, m))
    (hrc : m.refCount = 1)
    (horacle : o m.controller m.lun m.path m.config = some e) :
    unmount mm o p
      = (.failed ("unmount scsi controller " ++ toString m.controller ++ " lun "
          ++ toString m.lun ++ " at path " ++ m.path ++ ": " ++ e),
         { mm with mounts := mm.mounts.set i (some { m with refCount := 0 }) },
         true) := by
  have hdec : decWrap m.refCount = 0 := by
    rw [hrc, decWrap, w64_val]
  rw [unmount, htarget]
  dsimp only
  rw [hdec, if_neg (by omega : ¬ (0 : Nat) > 0), horacle]

/-- Witness for C4: a failing physical unmount at refCount 1 leaves the
entry tracked with refCount 0 and surfaces the wrapped error. -/
theorem unmount_failure_keeps_entry_witness :
    unmountTarget "/a" ([some sampleEntry0] : List (Option Mount)) 0
      = some (0, sampleEntry0)
    ∧ sampleEntry0.refCount = 1
    ∧ (fun _ _ _ _ => some "boom" : MountOracle) sampleEntry0.controller
        sampleEntry0.lun sampleEntry0.path sampleEntry0.config = some "boom"
    ∧ unmount ⟨[some sampleEntry0], sampleGen⟩ (fun _ _ _ _ => some "boom") "/a"
      = (.failed ("unmount scsi controller " ++ toString sampleEntry0.controller
          ++ " lun " ++ toString sampleEntry0.lun ++ " at path "
          ++ sampleEntry0.path ++ ": " ++ "boom"),
         ⟨([some sampleEntry0] : List (Option Mount)).set 0
            (some { sampleEntry0 with refCount := 0 }), sampleGen⟩,
         true) :=
  ⟨rfl, rfl, rfl, unmount_failure_keeps_entry rfl rfl rfl⟩

/-- Counterexample for C4 as frozen: after the failing final unmount the
entry is still in the table (slot 0 is not a tombstone), contradicting
"the entry is left untracked regardless of the failure". -/
theorem unmount_failure_counterexample :
    (unmount ⟨[some sampleEntry0], sampleGen⟩ (fun _ _ _ _ => some "boom")
        "/a").2.1.mounts
      = [some { sampleEntry0 with refCount := 0 }]
    ∧ (unmount ⟨[some sampleEntry0], sampleGen⟩ (fun _ _ _ _ => some "boom")
        "/a").2.1.mounts ≠ [none] := by
  constructor
  · rfl
  · decide

/-- Claim C10: unmount is only safe when some live entry owns the path.
When one does, the search loop stops at the first such entry and the
decrement targets it (no nil dereference). When none does, the loop
variable ends up nil (empty table or nil last slot), so the decrement
dereferences a nil pointer, or else it holds the last slot's live entry,
an unrelated entry, which gets decremented instead. -/
theorem unmount_requires_live_owner (mm : MountManager) (o : MountOracle)
    (p : String) :
    ((∃ (r : Nat) (m : Mount), mm.mounts[r]? = some (some m) ∧ m.path = p) →
      ∃ (i : Nat) (m : Mount), unmountTarget p mm.mounts 0 = some (i, m)
        ∧ mm.mounts[i]? = some (some m) ∧ m.path = p
        ∧ (∀ (r' : Nat) (m' : Mount), r' < i →
            mm.mounts[r']? = some (some m') → m'.path ≠ p)
        ∧ (unmount mm o p).1 ≠ .panic)
    ∧ ((∀ (r : Nat) (m : Mount), mm.mounts[r]? = some (some m) → m.path ≠ p) →
      unmount mm o p = (.panic, mm, false)
      ∨ ∃ m : Mount, unmountTarget p mm.mounts 0
            = some (mm.mounts.length - 1, m)
          ∧ mm.mounts.getLast? = some (some m) ∧ m.path ≠ p
          ∧ (unmount mm o p).1 ≠ .panic) := by
  constructor
  · intro hex
    obtain ⟨r, m, hu, hr, hp, hpre⟩ := unmountTarget_match mm.mounts 0 hex
    rw [Nat.zero_add] at hu
    exact ⟨r, m, hu, hr, hp, fun r' m' h1 h2 => hpre r' m' h1 h2,
      unmount_not_panic hu⟩
  · intro hno
    rcases unmountTarget_nomatch mm.mounts 0 hno with ⟨h1, -⟩ | ⟨m, h1, h2, h3⟩
    · left
      simp only [unmount, h1]
    · right
      rw [Nat.zero_add] at h1
      exact ⟨m, h1, h2, h3, unmount_not_panic h1⟩

/-- Witness for C10 on a one-entry table owning the queried path. -/
theorem unmount_requires_live_owner_witness :
    ((∃ (r : Nat) (m : Mount),
        (⟨[some sampleEntry0], sampleGen⟩ : MountManager).mounts[r]?
          = some (some m) ∧ m.path = "/a") →
      ∃ (i : Nat) (m : Mount),
        unmountTarget "/a" (⟨[some sampleEntry0], sampleGen⟩ :
          MountManager).mounts 0 = some (i, m)
        ∧ (⟨[some sampleEntry0], sampleGen⟩ :
            MountManager).mounts[i]? = some (some m) ∧ m.path = "/a"
        ∧ (∀ (r' : Nat) (m' : Mount), r' < i →
            (⟨[some sampleEntry0], sampleGen⟩ :
              MountManager).mounts[r']? = some (some m') → m'.path ≠ "/a")
        ∧ (unmount ⟨[some sampleEntry0], sampleGen⟩ alwaysOk "/a").1 ≠ .panic)
    ∧ ((∀ (r : Nat) (m : Mount),
        (⟨[some sampleEntry0], sampleGen⟩ :
          MountManager).mounts[r]? = some (some m) → m.path ≠ "/a") →
      unmount ⟨[some sampleEntry0], sampleGen⟩ alwaysOk "/a"
          = (.panic, ⟨[some sampleEntry0], sampleGen⟩, false)
      ∨ ∃ m : Mount,
          unmountTarget "/a" (⟨[some sampleEntry0], sampleGen⟩ :
            MountManager).mounts 0
            = some ((⟨[some sampleEntry0], sampleGen⟩ :
                MountManager).mounts.length - 1, m)
          ∧ (⟨[some sampleEntry0], sampleGen⟩ :
              MountManager).mounts.getLast? = some (some m) ∧ m.path ≠ "/a"
          ∧ (unmount ⟨[some sampleEntry0], sampleGen⟩ alwaysOk "/a").1
              ≠ .panic) :=
  unmount_requires_live_owner ⟨[some sampleEntry0], sampleGen⟩ alwaysOk "/a"

/-- Claim C6 (amended): if mount is called with a non-empty path equal to
the path of a live entry, and no live entry is key-equal to the caller's
key and canonicalised config, the call fails with the mount-path-conflict
error, the table is left unchanged, and no mounter.mount is attempted. -/
theorem mount_path_conflict
    {mm : MountManager} {o : MountOracle} {controller lun : Nat} {p : String}
    {c : MountConfig}
    (hnk : ∀ (r : Nat) (e : Mount), mm.mounts[r]? = some (some e) →
      ¬ KeyEq controller lun (sortConfig c) e)
    (hex : ∃ (r : Nat) (e : Mount), mm.mounts[r]? = some (some e)
      ∧ p ≠ "" ∧ p = e.path) :
    mount mm o controller lun p c
      = (.error ("cannot mount over an existing mountpoint: " ++ p), mm,
         false) := by
  have hex' : ∃ (r : Nat) (e : Mount), mm.mounts[r]? = some (some e)
      ∧ PathClash p e := by
    obtain ⟨r, e, h1, h2, h3⟩ := hex
    exact ⟨r, e, h1, h2, h3⟩
  have hc := trackMount_conflict_spec hnk hex'
  simp only [mount, hc]

/-- Witness for C6: a caller with key (0, 0) and path "/a" clashing with
the live entry of key (9, 9) at "/a". -/
theorem mount_path_conflict_witness :
    (∀ (r : Nat) (e : Mount),
      (⟨[some sampleEntry0], sampleGen⟩ :
        MountManager).mounts[r]? = some (some e) →
      ¬ KeyEq 0 0 (sortConfig sampleConfig) e)
    ∧ (∃ (r : Nat) (e : Mount),
        (⟨[some sampleEntry0], sampleGen⟩ :
          MountManager).mounts[r]? = some (some e)
        ∧ "/a" ≠ "" ∧ "/a" = e.path)
    ∧ mount ⟨[some sampleEntry0], sampleGen⟩ alwaysOk 0 0 "/a" sampleConfig
      = (.error ("cannot mount over an existing mountpoint: " ++ "/a"),
         ⟨[some sampleEntry0], sampleGen⟩, false) := by
  have hnk : ∀ (r : Nat) (e : Mount),
      (⟨[some sampleEntry0], sampleGen⟩ :
        MountManager).mounts[r]? = some (some e) →
      ¬ KeyEq 0 0 (sortConfig sampleConfig) e := by
    intro r e hr
    match r with
    | 0 =>
      simp only [List.getElem?_cons_zero, Option.some.injEq] at hr
      subst hr
      decide
    | r + 1 => simp at hr
  have hex : ∃ (r : Nat) (e : Mount),
      (⟨[some sampleEntry0], sampleGen⟩ :
        MountManager).mounts[r]? = some (some e)
      ∧ "/a" ≠ "" ∧ "/a" = e.path :=
    ⟨0, sampleEntry0, rfl, by decide, rfl⟩
  exact ⟨hnk, hex, mount_path_conflict hnk hex⟩

/-- Counterexample for C6 as frozen: the table holds a key-equal entry at
"/mnt/a" (slot 0) and an entry of a different key at "/mnt/b" (slot 1);
mounting with path "/mnt/b" does not fail with a conflict: the key-equal
entry wins first, the call succeeds with the pioneer's path "/mnt/a" and the
table changes (the refCount rises). -/
theorem mount_path_conflict_counterexample :
    (mount ⟨[some ⟨"/mnt/a", 0, 0, 0, sampleConfig, none, 1⟩,
             some ⟨"/mnt/b", 1, 0, 1, sampleConfig, none, 1⟩], sampleGen⟩
        alwaysOk 0 0 "/mnt/b" sampleConfig).1 = .ok "/mnt/a"
    ∧ (mount ⟨[some ⟨"/mnt/a", 0, 0, 0, sampleConfig, none, 1⟩,
               some ⟨"/mnt/b", 1, 0, 1, sampleConfig, none, 1⟩], sampleGen⟩
        alwaysOk 0 0 "/mnt/b" sampleConfig).2.1.mounts
      ≠ [some ⟨"/mnt/a", 0, 0, 0, sampleConfig, none, 1⟩,
         some ⟨"/mnt/b", 1, 0, 1, sampleConfig, none, 1⟩] := by
  constructor
  · rfl
  · decide

/-- Claim C2: for any balanced sequence of mount/unmount operations on one
key (within the uint range), the live entry's refCount equals mounts minus
unmounts, the slot is freed exactly when the count reaches zero, and a
single unmount invokes mounter.unmount exactly when the entry's count
reaches zero (the specCounters spec counts one release per drop to zero). -/
theorem refcount_mounts_minus_unmounts
    (gen : Nat → String) (controller lun : Nat) (c : MountConfig)
    (ops : List MMOp)
    (hbal : balancedFrom 0 ops = true) (hlen : ops.length < W64) :
    (∃ mmF : MountManager,
      runOps controller lun c ops (⟨[], gen⟩, 0, 0)
        = (mmF, (specCounters 0 ops).2.1, (specCounters 0 ops).2.2)
      ∧ ((ops.count MMOp.mnt - ops.count MMOp.unmnt = 0
            ∧ (mmF.mounts = [] ∨ mmF.mounts = [none]))
         ∨ (0 < ops.count MMOp.mnt - ops.count MMOp.unmnt
            ∧ mmF.mounts = [some (singleKeyEntry gen controller lun c
                (ops.count MMOp.mnt - ops.count MMOp.unmnt))])))
    ∧ (∀ (mm : MountManager) (o : MountOracle) (p : String) (i : Nat)
        (m : Mount),
        unmountTarget p mm.mounts 0 = some (i, m) → m.refCount < W64 →
        ((unmount mm o p).2.2 = true ↔ m.refCount = 1)) := by
  constructor
  · obtain ⟨mmF, hrun, -, hsh⟩ :=
      runOps_spec ops 0 ⟨[], gen⟩ 0 0 rfl (.inl ⟨rfl, .inl rfl⟩) hbal
        (by simpa using hlen)
    have h1 : (specCounters 0 ops).1
        = ops.count MMOp.mnt - ops.count MMOp.unmnt := by
      rw [(balanced_count ops 0 hbal).2]
      omega
    rw [h1] at hsh
    exact ⟨mmF, by simpa using hrun, hsh⟩
  · intro mm o p i m hu hW
    by_cases h1 : m.refCount = 1
    · have hdec : decWrap m.refCount = 0 := by rw [h1, decWrap, w64_val]
      have hni : ¬ (0 : Nat) > 0 := by omega
      have hinvoked : (unmount mm o p).2.2 = true := by
        cases horc : o m.controller m.lun m.path m.config with
        | some e =>
          rw [unmount, hu]
          dsimp only
          rw [hdec, if_neg hni, horc]
        | none =>
          rw [unmount, hu]
          dsimp only
          rw [hdec, if_neg hni, horc]
      exact ⟨fun _ => h1, fun _ => hinvoked⟩
    · have hdpos : decWrap m.refCount > 0 := by
        rcases Nat.eq_zero_or_pos m.refCount with h0 | hp
        · rw [h0, decWrap, w64_val]
          omega
        · rw [decWrap_pos hp hW]
          omega
      have hst : (unmount mm o p).2.2 = false := by
        rw [unmount, hu]
        dsimp only
        rw [if_pos hdpos]
      constructor
      · intro hx
        rw [hst] at hx
        exact absurd hx (by simp)
      · intro hx
        exact absurd hx h1

/-- Witness for C2 on the sequence mount, mount, unmount, unmount. -/
theorem refcount_mounts_minus_unmounts_witness :
    balancedFrom 0 [MMOp.mnt, MMOp.mnt, MMOp.unmnt, MMOp.unmnt] = true
    ∧ ([MMOp.mnt, MMOp.mnt, MMOp.unmnt, MMOp.unmnt] : List MMOp).length < W64
    ∧ ((∃ mmF : MountManager,
        runOps 0 3 sampleConfig [MMOp.mnt, MMOp.mnt, MMOp.unmnt, MMOp.unmnt]
            (⟨[], sampleGen⟩, 0, 0)
          = (mmF,
             (specCounters 0 [MMOp.mnt, MMOp.mnt, MMOp.unmnt, MMOp.unmnt]).2.1,
             (specCounters 0 [MMOp.mnt, MMOp.mnt, MMOp.unmnt, MMOp.unmnt]).2.2)
        ∧ ((([MMOp.mnt, MMOp.mnt, MMOp.unmnt, MMOp.unmnt] :
                List MMOp).count MMOp.mnt
              - ([MMOp.mnt, MMOp.mnt, MMOp.unmnt, MMOp.unmnt] :
                List MMOp).count MMOp.unmnt = 0
            ∧ (mmF.mounts = [] ∨ mmF.mounts = [none]))
           ∨ (0 < ([MMOp.mnt, MMOp.mnt, MMOp.unmnt, MMOp.unmnt] :
                List MMOp).count MMOp.mnt
              - ([MMOp.mnt, MMOp.mnt, MMOp.unmnt, MMOp.unmnt] :
                List MMOp).count MMOp.unmnt
            ∧ mmF.mounts = [some (singleKeyEntry sampleGen 0 3 sampleConfig
                (([MMOp.mnt, MMOp.mnt, MMOp.unmnt, MMOp.unmnt] :
                    List MMOp).count MMOp.mnt
                  - ([MMOp.mnt, MMOp.mnt, MMOp.unmnt, MMOp.unmnt] :
                    List MMOp).count MMOp.unmnt))])))
      ∧ (∀ (mm : MountManager) (o : MountOracle) (p : String) (i : Nat)
          (m : Mount),
          unmountTarget p mm.mounts 0 = some (i, m) → m.refCount < W64 →
          ((unmount mm o p).2.2 = true ↔ m.refCount = 1))) :=
  ⟨by decide, by decide,
   refcount_mounts_minus_unmounts sampleGen 0 3 sampleConfig
     [MMOp.mnt, MMOp.mnt, MMOp.unmnt, MMOp.unmnt] (by decide) (by decide)⟩

/-- Claim C1 (amended): two mount calls with key-equal configs (equal after
sorting the options), where the second call's supplied path collides with
no live entry of a different key: the second caller performs no mounter
invocation, only bumps the pioneer entry's refCount to 2, and both callers
end with the pioneer's outcome. -/
theorem mount_deduplication
    {mm0 : MountManager} {controller lun : Nat} {p1 p2 : String}
    {c1 c2 : MountConfig} {mA : Mount} {mm1 : MountManager}
    (pioneerErr otherErr : Option String)
    (hkey : sortConfig c1 = sortConfig c2)
    (hA : trackMount mm0 controller lun p1 (sortConfig c1)
      = (.ok (mA, false), mm1))
    (hp2 : ∀ (r : Nat) (e : Mount), mm1.mounts[r]? = some (some e) →
      p2 ≠ "" → p2 = e.path → KeyEq controller lun (sortConfig c2) e) :
    trackMount mm1 controller lun p2 (sortConfig c2)
      = (.ok ({ mA with refCount := 2 }, true),
         { mm1 with mounts :=
            mm1.mounts.set mA.index (some { mA with refCount := 2 }) })
    ∧ ∃ (res : Except String String) (mmF : MountManager),
        inflightDedup mm0 controller lun p1 p2 c1 c2 pioneerErr otherErr
          = ((res, 1), (res, 0), mmF) := by
  obtain ⟨hrc, -, hctl, hlun, hcfg, hnm, hat, hother, -, -, -, -⟩ :=
    trackMount_fresh_spec hA
  have hk : KeyEq controller lun (sortConfig c2) mA :=
    ⟨hctl.symm, hlun.symm, by rw [← hkey]; exact hcfg.symm⟩
  have hpre : ∀ j', j' < mA.index → ∀ e, mm1.mounts[j']? = some (some e) →
      ¬ KeyEq controller lun (sortConfig c2) e ∧ ¬ PathClash p2 e := by
    intro j' hj' e he
    have hne : j' ≠ mA.index := by omega
    have hmm0 : mm0.mounts[j']? = some (some e) := by
      rw [← hother j' hne]
      exact he
    constructor
    · rw [← hkey]
      exact (hnm j' e hmm0).1
    · intro hclash
      have hke := hp2 j' e he hclash.1 hclash.2
      rw [← hkey] at hke
      exact (hnm j' e hmm0).1 hke
  have hded := trackMount_dedup_spec hat hk hpre
  have hinc : incWrap mA.refCount = 2 := by
    rw [hrc, incWrap, w64_val]
  rw [hinc] at hded
  refine ⟨hded, ?_⟩
  simp only [inflightDedup, hA, hded]
  cases pioneerErr with
  | some e => exact ⟨_, _, rfl⟩
  | none => exact ⟨_, _, rfl⟩

/-- Witness for C1: two callers of key (0, 3) with the same options in
opposite orders, the pioneer succeeding; one mounter call, count 2, same
assigned path. -/
theorem mount_deduplication_witness :
    sortConfig sampleConfigBA = sortConfig sampleConfigAB
    ∧ trackMount ⟨[], sampleGen⟩ 0 3 "" (sortConfig sampleConfigBA)
      = (.ok ((⟨"/m0", 0, 0, 3, sampleConfigAB, none, 1⟩ : Mount), false),
         ⟨[some ⟨"/m0", 0, 0, 3, sampleConfigAB, none, 1⟩], sampleGen⟩)
    ∧ (trackMount ⟨[some ⟨"/m0", 0, 0, 3, sampleConfigAB, none, 1⟩], sampleGen⟩
          0 3 "" (sortConfig sampleConfigAB)
        = (.ok (({ (⟨"/m0", 0, 0, 3, sampleConfigAB, none, 1⟩ : Mount) with
                refCount := 2 }), true),
           ⟨([some ⟨"/m0", 0, 0, 3, sampleConfigAB, none, 1⟩] :
              List (Option Mount)).set 0
                (some { (⟨"/m0", 0, 0, 3, sampleConfigAB, none, 1⟩ : Mount) with
                  refCount := 2 }), sampleGen⟩)
      ∧ ∃ (res : Except String String) (mmF : MountManager),
          inflightDedup ⟨[], sampleGen⟩ 0 3 "" "" sampleConfigBA sampleConfigAB
              none none
            = ((res, 1), (res, 0), mmF)) := by
  have hkey : sortConfig sampleConfigBA = sortConfig sampleConfigAB := by
    decide
  have hA : trackMount ⟨[], sampleGen⟩ 0 3 "" (sortConfig sampleConfigBA)
      = (.ok ((⟨"/m0", 0, 0, 3, sampleConfigAB, none, 1⟩ : Mount), false),
         ⟨[some ⟨"/m0", 0, 0, 3, sampleConfigAB, none, 1⟩], sampleGen⟩) := rfl
  have hp2 : ∀ (r : Nat) (e : Mount),
      (⟨[some ⟨"/m0", 0, 0, 3, sampleConfigAB, none, 1⟩], sampleGen⟩ :
        MountManager).mounts[r]? = some (some e) →
      ("" : String) ≠ "" → ("" : String) = e.path →
      KeyEq 0 3 (sortConfig sampleConfigAB) e :=
    fun _ _ _ hne _ => absurd rfl hne
  exact ⟨hkey, hA, mount_deduplication none none hkey hA hp2⟩

/-- Counterexample for C1 as frozen: a pioneer of key (0, 0) holds "/mnt/y";
a second key-equal caller supplies path "/mnt/x", which belongs to a live
entry of key (0, 9). The second call is rejected with the conflict error:
it neither increments the entry's refCount (the table is unchanged) nor
receives the pioneer's outcome "/mnt/y". -/
theorem mount_deduplication_counterexample :
    mount ⟨[some ⟨"/mnt/x", 0, 0, 9, sampleConfig, none, 1⟩], sampleGen⟩
        alwaysOk 0 0 "/mnt/y" sampleConfig
      = (.ok "/mnt/y",
         ⟨[some ⟨"/mnt/x", 0, 0, 9, sampleConfig, none, 1⟩,
           some ⟨"/mnt/y", 1, 0, 0, sampleConfig, none, 1⟩], sampleGen⟩, true)
    ∧ (mount ⟨[some ⟨"/mnt/x", 0, 0, 9, sampleConfig, none, 1⟩,
               some ⟨"/mnt/y", 1, 0, 0, sampleConfig, none, 1⟩], sampleGen⟩
        alwaysOk 0 0 "/mnt/x" sampleConfig).1
      = .error "cannot mount over an existing mountpoint: /mnt/x"
    ∧ (mount ⟨[some ⟨"/mnt/x", 0, 0, 9, sampleConfig, none, 1⟩,
               some ⟨"/mnt/y", 1, 0, 0, sampleConfig, none, 1⟩], sampleGen⟩
        alwaysOk 0 0 "/mnt/x" sampleConfig).2.1.mounts
      = [some ⟨"/mnt/x", 0, 0, 9, sampleConfig, none, 1⟩,
         some ⟨"/mnt/y", 1, 0, 0, sampleConfig, none, 1⟩] :=
  ⟨rfl, rfl, rfl⟩

/-- Claim C5 (amended): in every state reachable by mount/unmount sequences
in which every mount call supplies an empty path or one outside the range
of the (injective) format template, no two live entries share a non-empty
path. -/
theorem no_duplicate_live_paths (gen : Nat → String)
    (hinj : Function.Injective gen) (mm : MountManager)
    (h : ReachableAvoiding gen mm) :
    ∀ (i j : Nat) (mi mj : Mount), i ≠ j →
      mm.mounts[i]? = some (some mi) → mm.mounts[j]? = some (some mj) →
      mi.path ≠ "" → mi.path ≠ mj.path := by
  have hok : TableOk gen mm := by
    induction h with
    | init =>
      refine ⟨rfl, ?_, ?_⟩
      · intro i m hi
        simp at hi
      · intro i j mi mj hij hi
        simp at hi
    | mountStep mm o controller lun p c hp _ ih => exact tableOk_mount hinj hp ih
    | unmountStep mm o p _ ih => exact tableOk_unmount ih
  exact hok.2.2

/-- Witness for C5: two mounts with empty supplied paths under an injective
template. -/
theorem no_duplicate_live_paths_witness :
    Function.Injective sampleGenInj
    ∧ ReachableAvoiding sampleGenInj
        (mount (mount ⟨[], sampleGenInj⟩ alwaysOk 0 0 "" sampleConfig).2.1
          alwaysOk 0 1 "" sampleConfig).2.1
    ∧ (∀ (i j : Nat) (mi mj : Mount), i ≠ j →
        (mount (mount ⟨[], sampleGenInj⟩ alwaysOk 0 0 "" sampleConfig).2.1
            alwaysOk 0 1 "" sampleConfig).2.1.mounts[i]? = some (some mi) →
        (mount (mount ⟨[], sampleGenInj⟩ alwaysOk 0 0 "" sampleConfig).2.1
            alwaysOk 0 1 "" sampleConfig).2.1.mounts[j]? = some (some mj) →
        mi.path ≠ "" → mi.path ≠ mj.path) := by
  have hinj : Function.Injective sampleGenInj := by
    intro a b h
    have := congrArg (fun s => s.data.length) h
    simpa [sampleGenInj] using this
  have hreach : ReachableAvoiding sampleGenInj
      (mount (mount ⟨[], sampleGenInj⟩ alwaysOk 0 0 "" sampleConfig).2.1
        alwaysOk 0 1 "" sampleConfig).2.1 :=
    ReachableAvoiding.mountStep _ alwaysOk 0 1 "" sampleConfig (.inl rfl)
      (ReachableAvoiding.mountStep _ alwaysOk 0 0 "" sampleConfig (.inl rfl)
        ReachableAvoiding.init)
  exact ⟨hinj, hreach, no_duplicate_live_paths sampleGenInj hinj _ hreach⟩

/-- Counterexample for C5 as frozen: mounting with the caller-supplied path
"a" and then with an empty path reaches a state whose two live entries both
hold the non-empty path "a" (the generated path of slot 1 collides with the
supplied one). -/
theorem no_duplicate_live_paths_counterexample :
    ∃ mm : MountManager, Reachable sampleGenInj mm
      ∧ ∃ (i j : Nat) (mi mj : Mount), i ≠ j
        ∧ mm.mounts[i]? = some (some mi) ∧ mm.mounts[j]? = some (some mj)
        ∧ mi.path = mj.path ∧ mi.path ≠ "" := by
  refine ⟨_, Reachable.mountStep _ alwaysOk 0 1 "" sampleConfig
      (Reachable.mountStep _ alwaysOk 0 0 "a" sampleConfig Reachable.init), ?_⟩
  exact ⟨0, 1, ⟨"a", 0, 0, 0, sampleConfig, none, 1⟩,
    ⟨"a", 1, 0, 1, sampleConfig, none, 1⟩, by decide, rfl, rfl, rfl, by decide⟩

/-- Claim C8: UnmarshalContainerModifySettings decodes in two phases: the
outer envelope leaves Request raw, the Request parses into (ResourceType,
RequestType, raw Settings) with RequestType defaulting to Add when empty,
and the raw Settings parse into the concrete record selected by
ResourceType; an unrecognised ResourceType yields the invalid-resource-type
error. -/
theorem unmarshal_modify_settings_two_phase
    (j : Json) (fields rfields : List (String × Json)) (cid aid rt rq0 : String)
    (hj : j = Json.obj fields)
    (hreq : fields.lookup "Request" = some (Json.obj rfields))
    (hcid : getStringField fields "ContainerId" = .ok cid)
    (haid : getStringField fields "ActivityId" = .ok aid)
    (hrt : getStringField rfields "ResourceType" = .ok rt)
    (hrq : getStringField rfields "RequestType" = .ok rq0) :
    UnmarshalContainerModifySettings j
      = (match dispatchSettings rt (rfields.lookup "Settings") with
         | .ok s => .ok ⟨cid, aid,
             ⟨rt, if rq0 = "" then RequestTypeAdd else rq0, s⟩⟩
         | .error e => .error e)
    ∧ (rt ∈ recognisedResourceTypes →
        ∀ s : Json, rfields.lookup "Settings" = some s →
        ∃ rec : SettingsRecord,
          UnmarshalContainerModifySettings j
            = .ok ⟨cid, aid,
                ⟨rt, if rq0 = "" then RequestTypeAdd else rq0, rec⟩⟩
          ∧ settingsMatch rt s rec)
    ∧ (rt ∉ recognisedResourceTypes →
        UnmarshalContainerModifySettings j
          = .error ("invalid ResourceType '" ++ rt ++ "'")) := by
  subst hj
  have heq : UnmarshalContainerModifySettings (Json.obj fields)
      = (match dispatchSettings rt (rfields.lookup "Settings") with
         | .ok s => .ok ⟨cid, aid,
             ⟨rt, if rq0 = "" then RequestTypeAdd else rq0, s⟩⟩
         | .error e => .error e) := by
    simp only [UnmarshalContainerModifySettings, hreq, hcid, haid, hrt, hrq]
  refine ⟨heq, ?_, ?_⟩
  · intro hmem s hs
    have hmem' : rt = ResourceTypeSCSIDevice ∨ rt = ResourceTypeMappedVirtualDisk
        ∨ rt = ResourceTypeMappedDirectory ∨ rt = ResourceTypeVPMemDevice
        ∨ rt = ResourceTypeCombinedLayers ∨ rt = ResourceTypeNetwork
        ∨ rt = ResourceTypeVPCIDevice ∨ rt = ResourceTypeContainerConstraints
        ∨ rt = ResourceTypeSecurityPolicy ∨ rt = ResourceTypePolicyFragment := by
      simpa [recognisedResourceTypes] using hmem
    rcases hmem' with h | h | h | h | h | h | h | h | h | h <;> subst h
    · exact ⟨.scsiDevice s, by rw [heq, hs]; rfl, Or.inl ⟨rfl, rfl⟩⟩
    · exact ⟨.mappedVirtualDisk s, by rw [heq, hs]; rfl,
        Or.inr (Or.inl ⟨rfl, rfl⟩)⟩
    · exact ⟨.mappedDirectory s, by rw [heq, hs]; rfl,
        Or.inr (Or.inr (Or.inl ⟨rfl, rfl⟩))⟩
    · exact ⟨.vpmemDevice s, by rw [heq, hs]; rfl,
        Or.inr (Or.inr (Or.inr (Or.inl ⟨rfl, rfl⟩)))⟩
    · exact ⟨.combinedLayers s, by rw [heq, hs]; rfl,
        Or.inr (Or.inr (Or.inr (Or.inr (Or.inl ⟨rfl, rfl⟩))))⟩
    · exact ⟨.networkAdapter s, by rw [heq, hs]; rfl,
        Or.inr (Or.inr (Or.inr (Or.inr (Or.inr (Or.inl ⟨rfl, rfl⟩)))))⟩
    · exact ⟨.vpciDevice s, by rw [heq, hs]; rfl,
        Or.inr (Or.inr (Or.inr (Or.inr (Or.inr (Or.inr
          (Or.inl ⟨rfl, rfl⟩))))))⟩
    · exact ⟨.containerConstraints s, by rw [heq, hs]; rfl,
        Or.inr (Or.inr (Or.inr (Or.inr (Or.inr (Or.inr (Or.inr
          (Or.inl ⟨rfl, rfl⟩)))))))⟩
    · exact ⟨.securityPolicy s, by rw [heq, hs]; rfl,
        Or.inr (Or.inr (Or.inr (Or.inr (Or.inr (Or.inr (Or.inr (Or.inr
          (Or.inl ⟨rfl, rfl⟩))))))))⟩
    · exact ⟨.policyFragment s, by rw [heq, hs]; rfl,
        Or.inr (Or.inr (Or.inr (Or.inr (Or.inr (Or.inr (Or.inr (Or.inr
          (Or.inr ⟨rfl, rfl⟩))))))))⟩
  · intro hnot
    have hne : rt ≠ ResourceTypeSCSIDevice ∧ rt ≠ ResourceTypeMappedVirtualDisk
        ∧ rt ≠ ResourceTypeMappedDirectory ∧ rt ≠ ResourceTypeVPMemDevice
        ∧ rt ≠ ResourceTypeCombinedLayers ∧ rt ≠ ResourceTypeNetwork
        ∧ rt ≠ ResourceTypeVPCIDevice ∧ rt ≠ ResourceTypeContainerConstraints
        ∧ rt ≠ ResourceTypeSecurityPolicy ∧ rt ≠ ResourceTypePolicyFragment := by
      simp only [recognisedResourceTypes, List.mem_cons, List.mem_singleton,
        not_or] at hnot
      simpa using hnot
    obtain ⟨h1, h2, h3, h4, h5, h6, h7, h8, h9, h10⟩ := hne
    rw [heq]
    rw [dispatchSettings]
    rw [if_neg h1, if_neg h2, if_neg h3, if_neg h4, if_neg h5, if_neg h6,
      if_neg h7, if_neg h8, if_neg h9, if_neg h10]

/-- Witness for C8: the S5 scenario, a MappedVirtualDisk modification with
the RequestType left empty. -/
theorem unmarshal_modify_settings_two_phase_witness :
    (Json.obj [("ContainerId", Json.str "c1"), ("ActivityId", Json.str "a1"),
        ("Request", Json.obj [("ResourceType", Json.str "MappedVirtualDisk"),
          ("Settings", Json.obj [])])]
      = Json.obj [("ContainerId", Json.str "c1"), ("ActivityId", Json.str "a1"),
        ("Request", Json.obj [("ResourceType", Json.str "MappedVirtualDisk"),
          ("Settings", Json.obj [])])])
    ∧ (UnmarshalContainerModifySettings
        (Json.obj [("ContainerId", Json.str "c1"), ("ActivityId", Json.str "a1"),
          ("Request", Json.obj [("ResourceType", Json.str "MappedVirtualDisk"),
            ("Settings", Json.obj [])])])
      = (match dispatchSettings "MappedVirtualDisk"
            (([("ResourceType", Json.str "MappedVirtualDisk"),
               ("Settings", Json.obj [])] :
              List (String × Json)).lookup "Settings") with
         | .ok s => .ok ⟨"c1", "a1",
             ⟨"MappedVirtualDisk",
              if ("" : String) = "" then RequestTypeAdd else "", s⟩⟩
         | .error e => .error e)
      ∧ ("MappedVirtualDisk" ∈ recognisedResourceTypes →
          ∀ s : Json,
          ([("ResourceType", Json.str "MappedVirtualDisk"),
            ("Settings", Json.obj [])] :
            List (String × Json)).lookup "Settings" = some s →
          ∃ rec : SettingsRecord,
            UnmarshalContainerModifySettings
              (Json.obj [("ContainerId", Json.str "c1"),
                ("ActivityId", Json.str "a1"),
                ("Request", Json.obj [("ResourceType",
                  Json.str "MappedVirtualDisk"), ("Settings", Json.obj [])])])
              = .ok ⟨"c1", "a1",
                  ⟨"MappedVirtualDisk",
                   if ("" : String) = "" then RequestTypeAdd else "", rec⟩⟩
            ∧ settingsMatch "MappedVirtualDisk" s rec)
      ∧ ("MappedVirtualDisk" ∉ recognisedResourceTypes →
          UnmarshalContainerModifySettings
            (Json.obj [("ContainerId", Json.str "c1"),
              ("ActivityId", Json.str "a1"),
              ("Request", Json.obj [("ResourceType",
                Json.str "MappedVirtualDisk"), ("Settings", Json.obj [])])])
            = .error ("invalid ResourceType '" ++ "MappedVirtualDisk" ++ "'"))) :=
  ⟨rfl, unmarshal_modify_settings_two_phase
    (Json.obj [("ContainerId", Json.str "c1"), ("ActivityId", Json.str "a1"),
      ("Request", Json.obj [("ResourceType", Json.str "MappedVirtualDisk"),
        ("Settings", Json.obj [])])])
    [("ContainerId", Json.str "c1"), ("ActivityId", Json.str "a1"),
      ("Request", Json.obj [("ResourceType", Json.str "MappedVirtualDisk"),
        ("Settings", Json.obj [])])]
    [("ResourceType", Json.str "MappedVirtualDisk"), ("Settings", Json.obj [])]
    "c1" "a1" "MappedVirtualDisk" "" rfl rfl rfl rfl rfl rfl⟩

end HcsGcs
